import Mathlib

/-!
Verification development for the `python-formatter-thing` repository.

The development shallowly embeds the three core components:

* `fixers.py` — the import-relocation fixer (`apply_fixes`,
  `_fix_move_imports_to_top`, `_ImportCollector`), embedded over a model of
  the Python `ast` statement tree (the syntax-tree provider is an external
  collaborator per the spec, so parse trees are inputs of the embedding);
* `token_context.py` — the statement segmenter (`iter_statements`,
  `compute_insertion_line_for_imports`), embedded over token streams (the
  tokenizer is the external Lexer Adapter);
* `engine.py` — the rule-matching engine (`check_paths`), with the external
  `re` module abstracted as a pattern that either compiles to a search
  function or fails to compile.

Python strings are Lean `String`s; Python lists are Lean `List`s; the
tri-state `None`/value becomes `Option`.  Line splitting models
`str.splitlines(keepends=True)` for `\n`-terminated text (the only line
terminator produced by the sources under consideration).
-/

/-! ## String helpers translating Python string primitives -/

/-- `str.splitlines(keepends=True)` for `\n` separators: auxiliary scan. -/
def splitLinesAux : List Char → List Char → List String
  | [], [] => []
  | [], acc => [String.mk acc.reverse]
  | c :: cs, acc =>
    if c = '\n' then String.mk (c :: acc).reverse :: splitLinesAux cs []
    else splitLinesAux cs (c :: acc)

/-- `source.splitlines(keepends=True)` (for `\n` line ends). -/
def splitLinesKeepEnds (s : String) : List String :=
  splitLinesAux s.data []

/-- `s.endswith("\n")`: the last character is a line feed. -/
def endsWithLF (s : String) : Bool :=
  s.data.getLast? = some '\n'

/-- `s.rstrip("\n")`: drop trailing line feeds only. -/
def rstripNewlines (s : String) : String :=
  String.mk (s.data.reverse.dropWhile (fun c => c = '\n')).reverse

/-- `s.strip()`: remove leading and trailing whitespace (structural
character-list implementation, so that concrete runs reduce). -/
def pyStrip (s : String) : String :=
  String.mk (((s.data.dropWhile Char.isWhitespace).reverse.dropWhile Char.isWhitespace).reverse)

/-- `s.startswith(p)`. -/
def strStartsWith (s p : String) : Bool :=
  decide (s.data.take p.data.length = p.data)

/-- `s[n:]` on character counts. -/
def strDrop (s : String) (n : Nat) : String :=
  String.mk (s.data.drop n)

/-- `line.strip() == ""`: the line is blank (whitespace only). -/
def isBlankLine (s : String) : Bool :=
  pyStrip s = ""

/-- A space or tab, the characters `textwrap.dedent` treats as indentation. -/
def isIndentChar (c : Char) : Bool :=
  c = ' ' || c = '\t'

/-- `textwrap.dedent` normalisation of whitespace-only lines: a line whose
content (excluding the newline) is a nonempty run of spaces/tabs is reduced
to its newline (or to the empty string if it had none). -/
def normalizeWsLine (l : String) : String :=
  let content := if endsWithLF l then String.mk l.data.dropLast else l
  if content.data ≠ [] ∧ content.data.all isIndentChar then
    (if endsWithLF l then "\n" else "")
  else l

/-- The leading space/tab run of a line. -/
def lineIndent (l : String) : String :=
  String.mk (l.data.takeWhile isIndentChar)

/-- The line has a significant (non-space/tab, non-newline) first character
after its indentation, so it contributes to the dedent margin. -/
def lineHasContent (l : String) : Bool :=
  match l.data.dropWhile isIndentChar with
  | [] => false
  | c :: _ => c ≠ '\n'

/-- Longest common prefix of two character lists. -/
def commonPre : List Char → List Char → List Char
  | x :: xs, y :: ys => if x = y then x :: commonPre xs ys else []
  | _, _ => []

/-- `textwrap.dedent`: normalise whitespace-only lines, compute the common
space/tab margin of the content-bearing lines, and strip it from each line. -/
def dedent (t : String) : String :=
  let ls := (splitLinesKeepEnds t).map normalizeWsLine
  let indents := ls.filterMap (fun l => if lineHasContent l then some (lineIndent l) else none)
  let margin := match indents with
    | [] => ""
    | i0 :: rest => rest.foldl (fun m i => String.mk (commonPre m.data i.data)) i0
  String.join (ls.map (fun l => if strStartsWith l margin then strDrop l margin.data.length else l))

/-! ## `fixers.py`: data model of the Python statement tree

The fixer re-derives structure with `ast.parse` (an external collaborator).
We model the statement-level shape of a parse tree: the constructors cover
exactly the node classes `_ImportCollector` dispatches on; every other
statement kind is `other`, carrying its statement children (the visitor of
`generic_visit` only ever recurses into child statements when looking
for import nodes).  `Try` handler bodies are flattened into one list, which
preserves the visit order and counters of the collector.  Positions (`lineno`,
`end_lineno`) are 1-based as in the Python `ast`. -/

inductive PyStmt where
  | functionDef (body : List PyStmt) (lineno end_lineno : Nat)
  | asyncFunctionDef (body : List PyStmt) (lineno end_lineno : Nat)
  | tryStmt (body handlers orelse finalbody : List PyStmt) (lineno end_lineno : Nat)
  | importStmt (lineno end_lineno : Nat)
  | importFrom (lineno end_lineno : Nat)
  | exprStr (lineno end_lineno : Nat)
  | other (children : List PyStmt) (lineno end_lineno : Nat)

/-- `ast.Module`: the top-level statement list. -/
structure PyModule where
  body : List PyStmt

/-- The mutable state of `_ImportCollector`: the `in_function`/`in_try`
depth counters and the offending import spans `(lineno, end_lineno)`
accumulated in visit order. -/
structure CState where
  in_function : Nat
  in_try : Nat
  offending : List (Nat × Nat)
deriving DecidableEq, Repr

mutual

/-- `_ImportCollector.visit` on one statement (visit methods plus
`generic_visit` recursion). -/
def collectStmt (s : CState) : PyStmt → CState
  | .functionDef body _ _ =>
    let s1 := collectList { s with in_function := s.in_function + 1 } body
    { s1 with in_function := s1.in_function - 1 }
  | .asyncFunctionDef body _ _ =>
    let s1 := collectList { s with in_function := s.in_function + 1 } body
    { s1 with in_function := s1.in_function - 1 }
  | .tryStmt body handlers orelse finalbody _ _ =>
    let s1 := collectList { s with in_try := s.in_try + 1 } body
    let s2 := collectList s1 handlers
    let s3 := collectList s2 orelse
    let s4 := collectList s3 finalbody
    { s4 with in_try := s4.in_try - 1 }
  | .importStmt a e =>
    if s.in_function > 0 ∧ s.in_try = 0 then { s with offending := s.offending ++ [(a, e)] } else s
  | .importFrom a e =>
    if s.in_function > 0 ∧ s.in_try = 0 then { s with offending := s.offending ++ [(a, e)] } else s
  | .exprStr _ _ => s
  | .other children _ _ => collectList s children

/-- `generic_visit` over a statement list. -/
def collectList (s : CState) : List PyStmt → CState
  | [] => s
  | x :: xs => collectList (collectStmt s x) xs

end

/-- Running `_ImportCollector` on a module (counters start at zero). -/
def collectModule (m : PyModule) : CState :=
  collectList ⟨0, 0, []⟩ m.body

/-- The docstring detection of `visit_Module`: `end_lineno` of a leading
string-constant expression statement, else `None`. -/
def moduleDocstringEnd (m : PyModule) : Option Nat :=
  match m.body with
  | .exprStr _ e :: _ => some e
  | _ => none

mutual

/-- Specification-level restatement of the collector criterion: the spans
of import statements that lie inside a function (`fn`) and inside no
`try` (`¬ tr`), in visit order.  Used to state claims about which imports
the fixer treats as offending. -/
def ugStmt (fn tr : Bool) : PyStmt → List (Nat × Nat)
  | .functionDef body _ _ => ugList true tr body
  | .asyncFunctionDef body _ _ => ugList true tr body
  | .tryStmt body handlers orelse finalbody _ _ =>
    ugList fn true body ++ ugList fn true handlers ++ ugList fn true orelse ++ ugList fn true finalbody
  | .importStmt a e => if fn ∧ ¬ tr then [(a, e)] else []
  | .importFrom a e => if fn ∧ ¬ tr then [(a, e)] else []
  | .exprStr _ _ => []
  | .other children _ _ => ugList fn tr children

def ugList (fn tr : Bool) : List PyStmt → List (Nat × Nat)
  | [] => []
  | x :: xs => ugStmt fn tr x ++ ugList fn tr xs

end

/-- The unguarded function-nested import spans of a module: what the
collector reports as offending. -/
def unguardedFnImports (m : PyModule) : List (Nat × Nat) :=
  ugList false false m.body

mutual

/-- Spans of import statements that lie inside a function AND inside some
`try` region: the imports the fixer must leave alone. -/
def gfStmt (fn tr : Bool) : PyStmt → List (Nat × Nat)
  | .functionDef body _ _ => gfList true tr body
  | .asyncFunctionDef body _ _ => gfList true tr body
  | .tryStmt body handlers orelse finalbody _ _ =>
    gfList fn true body ++ gfList fn true handlers ++ gfList fn true orelse ++ gfList fn true finalbody
  | .importStmt a e => if fn ∧ tr then [(a, e)] else []
  | .importFrom a e => if fn ∧ tr then [(a, e)] else []
  | .exprStr _ _ => []
  | .other children _ _ => gfList fn tr children

def gfList (fn tr : Bool) : List PyStmt → List (Nat × Nat)
  | [] => []
  | x :: xs => gfStmt fn tr x ++ gfList fn tr xs

end

/-- Try-guarded function-nested import spans of a module. -/
def guardedFnImports (m : PyModule) : List (Nat × Nat) :=
  gfList false false m.body

/-! ## `fixers.py`: the import-relocation fixer -/

/-- `_ImportSpan`: the line range of an offending import and its dedented text. -/
structure ImportSpan where
  lineno : Nat
  end_lineno : Nat
  text : String
deriving DecidableEq, Repr

/-- `"".join(lines[a-1 : e])`: the exact source text of lines `a..e`
(1-based, inclusive). -/
def sliceText (lines : List String) (a e : Nat) : String :=
  String.join ((lines.drop (a - 1)).take (e - (a - 1)))

/-- The span list built from the offending nodes of the collector (in the model
every node carries its positions, so no span is skipped). -/
def spansFrom (lines : List String) (offending : List (Nat × Nat)) : List ImportSpan :=
  offending.map (fun r => ⟨r.1, r.2, dedent (sliceText lines r.1 r.2)⟩)

/-- One iteration of the duplicate-removal loop building `moved`: the
`seen` set is the first component (a list of trimmed keys); blank spans are
dropped; with `dedupe` a repeated key is skipped; kept spans contribute
`text.rstrip("\n") + "\n"` to the second component. -/
def movedStep (dedupe : Bool) (acc : List String × List String) (sp : ImportSpan) :
    List String × List String :=
  let k := pyStrip sp.text
  if k = "" then acc
  else if dedupe && acc.1.contains k then acc
  else (acc.1 ++ [k], acc.2 ++ [rstripNewlines sp.text ++ "\n"])

/-- The `moved` list. -/
def movedFrom (dedupe : Bool) (spans : List ImportSpan) : List String :=
  (spans.foldl (movedStep dedupe) (([], []) : List String × List String)).2

/-- Descending lexicographic order on `(lineno, end_lineno)` pairs: the
order of `sorted(..., reverse=True)` restricted to the distinct pairs the
fixer sorts. -/
def lexGe (p q : Nat × Nat) : Prop :=
  q.1 < p.1 ∨ (p.1 = q.1 ∧ q.2 ≤ p.2)

instance : DecidableRel lexGe := fun p q => by
  unfold lexGe; infer_instance

instance : IsTotal (Nat × Nat) lexGe := by
  constructor
  intro a b
  rcases Nat.lt_trichotomy a.1 b.1 with h | h | h
  · exact Or.inr (Or.inl h)
  · rcases Nat.le_total b.2 a.2 with h2 | h2
    · exact Or.inl (Or.inr ⟨h, h2⟩)
    · exact Or.inr (Or.inr ⟨h.symm, h2⟩)
  · exact Or.inl (Or.inl h)

instance : IsTrans (Nat × Nat) lexGe := by
  constructor
  intro a b c hab hbc
  rcases hab with h1 | ⟨h1, h1'⟩
  · rcases hbc with h2 | ⟨h2, _⟩
    · exact Or.inl (h2.trans h1)
    · exact Or.inl (h2 ▸ h1)
  · rcases hbc with h2 | ⟨h2, h2'⟩
    · exact Or.inl (h1 ▸ h2)
    · exact Or.inr ⟨h1.trans h2, h2'.trans h1'⟩

/-- `sorted(set-of-pairs, key=(x0,x1), reverse=True)`: on distinct pairs any
correct sort agrees, modelled with insertion sort under `lexGe`. -/
def sortDesc (l : List (Nat × Nat)) : List (Nat × Nat) :=
  List.insertionSort lexGe l

/-- One deletion step of the bottom-up removal loop:
`del lines[start-1:end]`, then removal of a single now-blank line at the
old location.  (`del l[a:b]` with `b ≤ a` removes nothing.) -/
def delOneSpan (lines : List String) (se : Nat × Nat) : List String :=
  let s := se.1
  let e := se.2
  let l1 := if e ≤ s - 1 then lines else lines.take (s - 1) ++ lines.drop e
  if s - 1 < l1.length ∧ isBlankLine (l1.getD (s - 1) "") then l1.eraseIdx (s - 1) else l1

/-- `coding[:=]` followed by optional whitespace and one word/`-`/`.`
character: a match of the PEP 263 regex starting at this position. -/
def codingTail : List Char → Bool
  | [] => false
  | c :: rest => if c.isWhitespace then codingTail rest
    else c.isAlphanum || c = '_' || c = '-' || c = '.'

/-- Whether the PEP 263 pattern matches starting exactly here. -/
def codingAt : List Char → Bool
  | 'c' :: 'o' :: 'd' :: 'i' :: 'n' :: 'g' :: c :: rest =>
    (c = ':' || c = '=') && codingTail rest
  | _ => false

/-- `_RE_PEP263.search(line)`: the pattern matches somewhere in the line. -/
def hasCodingDecl (s : String) : Bool :=
  go s.data
where
  go : List Char → Bool
    | [] => false
    | c :: rest => codingAt (c :: rest) || go rest

/-- The leading run of blank lines at the head of a list. -/
def countLeadingBlanks : List String → Nat
  | [] => 0
  | l :: rest => if isBlankLine l then countLeadingBlanks rest + 1 else 0

/-- The `while i < len(lines) and lines[i].strip() == "": i += 1` loop:
the index advanced past the consecutive blank lines starting at `i`. -/
def skipBlanks (lines : List String) (i : Nat) : Nat :=
  i + countLeadingBlanks (lines.drop i)

/-- `compute_insertion_line_for_imports` from `token_context.py`: skip a
shebang, a PEP 263 encoding comment on line 1 or 2, leading blank lines, and
the module docstring (plus blank lines after it). -/
def computeInsertionLine (source : String) (module_docstring_end : Option Nat) : Nat :=
  let lines := splitLinesKeepEnds source
  let i0 := if strStartsWith (lines.getD 0 "") "#!" ∧ lines.length > 0 then 1 else 0
  let i1 := (List.range' i0 (min (i0 + 2) lines.length - i0)).foldl
    (fun acc j => if hasCodingDecl (lines.getD j "") then j + 1 else acc) i0
  let i2 := skipBlanks lines i1
  match module_docstring_end with
  | some d => if d > 0 then skipBlanks lines (max i2 d) else i2
  | none => i2

/-- The trailing `for stmt in body[start_idx:]` loop computing
`top_import_end`: scan past a leading docstring, then take the maximum
`end_lineno` of the leading run of top-level imports. -/
def topImportEnd (body : List PyStmt) : Option Nat :=
  let rest := match body with
    | .exprStr _ _ :: r => r
    | r => r
  go rest none
where
  go : List PyStmt → Option Nat → Option Nat
    | [], acc => acc
    | s :: r, acc =>
      match s with
      | .importStmt _ e => go r (some (max (acc.getD 0) e))
      | .importFrom _ e => go r (some (max (acc.getD 0) e))
      | _ => acc

/-! The fixer pipeline, staged exactly as the local variables of
`_fix_move_imports_to_top`. -/

/-- `source.splitlines(keepends=True)`. -/
def linesOf (source : String) : List String :=
  splitLinesKeepEnds source

/-- The `spans` local variable. -/
def spansOf (source : String) (tree : PyModule) : List ImportSpan :=
  spansFrom (linesOf source) (collectModule tree).offending

/-- The `moved` local variable. -/
def movedOf (source : String) (tree : PyModule) (dedupe : Bool) : List String :=
  movedFrom dedupe (spansOf source tree)

/-- The `to_remove` local variable: distinct spans sorted descending. -/
def toRemoveOf (source : String) (tree : PyModule) : List (Nat × Nat) :=
  sortDesc ((spansOf source tree).map (fun sp => (sp.lineno, sp.end_lineno))).dedup

/-- The `lines` list after the bottom-up deletion loop. -/
def deletedOf (source : String) (tree : PyModule) : List String :=
  (toRemoveOf source tree).foldl delOneSpan (linesOf source)

/-- The final `insert_i`: insertion line from the deleted text, extended
past the original leading top-level import block, clamped to the list. -/
def insertIdxOf (source : String) (tree : PyModule) : Nat :=
  let i0 := computeInsertionLine (String.join (deletedOf source tree)) (moduleDocstringEnd tree)
  let i1 := match topImportEnd tree.body with
    | some e => max i0 e
    | none => i0
  min i1 (deletedOf source tree).length

/-- The `prefix` separator before the moved block. -/
def sepBefore (source : String) (tree : PyModule) : List String :=
  let lines1 := deletedOf source tree
  let i := insertIdxOf source tree
  if i > 0 ∧ ¬ isBlankLine (lines1.getD (i - 1) "") then ["\n"] else []

/-- The `suffix` separator after the moved block. -/
def sepAfter (source : String) (tree : PyModule) : List String :=
  let lines1 := deletedOf source tree
  let i := insertIdxOf source tree
  if i < lines1.length ∧ ¬ isBlankLine (lines1.getD i "") then ["\n"] else []

/-- The `insertion_block` string. -/
def blockOf (source : String) (tree : PyModule) (dedupe : Bool) : String :=
  String.join (sepBefore source tree) ++ String.join (movedOf source tree dedupe)
    ++ String.join (sepAfter source tree)

/-- The line list after `lines[insert_i:insert_i] = [insertion_block]`. -/
def finalLinesOf (source : String) (tree : PyModule) (dedupe : Bool) : List String :=
  let lines1 := deletedOf source tree
  let i := insertIdxOf source tree
  lines1.take i ++ [blockOf source tree dedupe] ++ lines1.drop i

/-- `_fix_move_imports_to_top(source, dedupe=dedupe)`, with `tree` the
externally supplied parse of `source`.  Early returns when nothing is
offending or nothing survives deduplication; otherwise performs the span
surgery and guarantees a trailing newline on a nonempty result. -/
def fixMoveImportsToTop (source : String) (tree : PyModule) (dedupe : Bool) : String :=
  if (collectModule tree).offending.isEmpty then source
  else if movedOf source tree dedupe = [] then source
  else
    let out := String.join (finalLinesOf source tree dedupe)
    if out ≠ "" ∧ ¬ endsWithLF out then out ++ "\n" else out

/-! ## Rule model (`rules.py`) and `apply_fixes` -/

/-- The contract of the external `re` module: a pattern source either fails to
compile, or compiles to a searcher over statement fingerprints. -/
structure Pattern where
  compiles : Bool
  search : String → Bool

/-- `MatchContext`. -/
structure MatchContext where
  in_function : Option Bool
  not_in_blocks : List String

/-- `MatchSpec`. -/
structure MatchSpec where
  context : MatchContext
  statement_token_regex : Pattern

/-- `AutoFixSpec`. -/
structure AutoFixSpec where
  action : String
  dedupe : Bool

/-- `Rule` (severity is one of `"error" | "warning" | "info"`). -/
structure Rule where
  id : String
  enabled : Bool
  severity : String
  description : String
  matchSpec : MatchSpec
  autofix : Option AutoFixSpec

/-- `RuleSet`. -/
structure RuleSet where
  version : Nat
  rules : List Rule

/-- The first loop of `apply_fixes`: the distinct `(action, dedupe)` pairs
declared by enabled rules with a non-null autofix, keeping the first
occurrence of each action tag. -/
def actionsOf (rs : RuleSet) : List (String × Bool) :=
  (rs.rules.foldl
    (fun acc r =>
      match r.autofix with
      | none => acc
      | some af =>
        if ¬ r.enabled then acc
        else if acc.1.contains af.action then acc
        else (acc.1 ++ [af.action], acc.2 ++ [(af.action, af.dedupe)]))
    (([], []) : List String × List (String × Bool))).2

/-- `apply_fixes(source, ruleset=rs, unsafe=lossy)` with `tree` the parse of
`source`.  Only `"move_imports_to_top"` is implemented; every other action
is a no-op whether or not the lossy (`unsafe`) flag is set, so threading the
original tree through the fold is exact: the accumulator still equals
`source` whenever the implemented action runs. -/
def applyFixes (source : String) (tree : PyModule) (rs : RuleSet) (lossy : Bool) : String :=
  (actionsOf rs).foldl
    (fun out ad =>
      if ad.1 = "move_imports_to_top" then fixMoveImportsToTop out tree ad.2
      else out)
    source

/-! ## Basic lemmas about the string helpers -/

theorem join_append (l1 l2 : List String) :
    String.join (l1 ++ l2) = String.join l1 ++ String.join l2 := by
  apply String.ext
  simp [String.data_join]

theorem join_cons (a : String) (l : List String) :
    String.join (a :: l) = a ++ String.join l := by
  apply String.ext
  simp [String.data_join]

/-- Any element of a string list occurs verbatim inside the joined string. -/
theorem mem_join_occurrence {x : String} {l : List String} (h : x ∈ l) :
    ∃ pre post, String.join l = pre ++ x ++ post := by
  induction l with
  | nil => cases h
  | cons a t ih =>
    rcases List.mem_cons.mp h with rfl | h'
    · refine ⟨"", String.join t, ?_⟩
      rw [join_cons]
      apply String.ext
      simp
    · obtain ⟨p, q, hpq⟩ := ih h'
      refine ⟨a ++ p, q, ?_⟩
      rw [join_cons, hpq]
      apply String.ext
      simp

theorem join_splitLinesAux (cs : List Char) : ∀ acc : List Char,
    String.join (splitLinesAux cs acc) = String.mk (acc.reverse ++ cs) := by
  induction cs with
  | nil =>
    intro acc
    cases acc with
    | nil => rfl
    | cons c cc =>
      show String.join [String.mk (c :: cc).reverse] = _
      apply String.ext
      simp [String.data_join]
  | cons c cc ih =>
    intro acc
    by_cases h : c = '\n'
    · subst h
      rw [splitLinesAux, if_pos rfl, join_cons, ih []]
      apply String.ext
      simp
    · rw [splitLinesAux, if_neg h, ih (c :: acc)]
      apply congrArg
      simp

/-- Splitting into kept-ends lines and re-joining is the identity. -/
theorem join_splitLines (s : String) : String.join (splitLinesKeepEnds s) = s := by
  cases s with
  | mk d => simpa [splitLinesKeepEnds] using join_splitLinesAux d []

theorem endsWithLF_append_newline (s : String) : endsWithLF (s ++ "\n") = true := by
  simp [endsWithLF, String.data_append]

/-- A list element with nonempty data forces the join to be nonempty. -/
theorem join_ne_empty_of_mem {x : String} {l : List String} (hx : x ∈ l)
    (hne : x.data ≠ []) : String.join l ≠ "" := by
  intro h
  obtain ⟨p, q, hpq⟩ := mem_join_occurrence hx
  rw [h] at hpq
  have : ("" : String).data = (p ++ x ++ q).data := by rw [hpq]
  simp [String.data_append] at this
  exact hne this.2.1

/-! ## The collector computes exactly the unguarded function-nested spans -/

mutual

theorem collectStmt_eq : ∀ (s : CState) (x : PyStmt),
    collectStmt s x =
      ⟨s.in_function, s.in_try,
        s.offending ++ ugStmt (decide (0 < s.in_function)) (decide (0 < s.in_try)) x⟩
  | s, .functionDef body _ _ => by
    have h1 := collectList_eq { s with in_function := s.in_function + 1 } body
    simp [collectStmt, ugStmt, h1]
  | s, .asyncFunctionDef body _ _ => by
    have h1 := collectList_eq { s with in_function := s.in_function + 1 } body
    simp [collectStmt, ugStmt, h1]
  | s, .tryStmt body handlers orelse finalbody _ _ => by
    simp only [collectStmt]
    rw [collectList_eq { s with in_try := s.in_try + 1 } body]
    rw [collectList_eq _ handlers]
    rw [collectList_eq _ orelse]
    rw [collectList_eq _ finalbody]
    simp [ugStmt]
  | s, .importStmt a e => by
    by_cases h : s.in_function > 0 ∧ s.in_try = 0
    · have hf : decide (0 < s.in_function) = true := by simpa using h.1
      have ht : decide (0 < s.in_try) = true ↔ False := by simp [h.2]
      simp [collectStmt, ugStmt, h, hf, h.2]
    · simp [collectStmt, ugStmt, h]
  | s, .importFrom a e => by
    by_cases h : s.in_function > 0 ∧ s.in_try = 0
    · have hf : decide (0 < s.in_function) = true := by simpa using h.1
      simp [collectStmt, ugStmt, h, hf, h.2]
    · simp [collectStmt, ugStmt, h]
  | s, .exprStr _ _ => by
    simp [collectStmt, ugStmt]
  | s, .other children _ _ => by
    have h1 := collectList_eq s children
    simp [collectStmt, ugStmt, h1]

theorem collectList_eq : ∀ (s : CState) (l : List PyStmt),
    collectList s l =
      ⟨s.in_function, s.in_try,
        s.offending ++ ugList (decide (0 < s.in_function)) (decide (0 < s.in_try)) l⟩
  | s, [] => by simp [collectList, ugList]
  | s, x :: xs => by
    have h1 := collectStmt_eq s x
    have h2 := collectList_eq (collectStmt s x) xs
    rw [collectList, h2, h1]
    simp [ugList]

end

/-- `_ImportCollector` run on a module reports exactly the spans of imports
nested in a function and guarded by no `try`. -/
theorem collectModule_offending (m : PyModule) :
    (collectModule m).offending = unguardedFnImports m := by
  rw [collectModule, collectList_eq]
  simp [unguardedFnImports]

/-! ## Behaviour of the fixer on sources with nothing to relocate -/

/-- `_fix_move_imports_to_top` early-returns the source untouched when the
collector finds nothing offending. -/
theorem fixMove_noop (source : String) (tree : PyModule) (dedupe : Bool)
    (h : unguardedFnImports tree = []) :
    fixMoveImportsToTop source tree dedupe = source := by
  have h0 : (collectModule tree).offending = [] := by
    rw [collectModule_offending, h]
  simp [fixMoveImportsToTop, h0]

/-- Claim C10: for every parseable source with no import nested inside a
function outside every `try`, `apply_fixes` returns the source byte-for-byte
unchanged (no trailing-newline or blank-line normalisation), for any rule
set and either value of the lossy flag. -/
theorem c10_apply_fixes_identity_when_nothing_offending
    (source : String) (tree : PyModule) (rs : RuleSet) (lossy : Bool)
    (h : unguardedFnImports tree = []) :
    applyFixes source tree rs lossy = source := by
  rw [applyFixes]
  generalize actionsOf rs = acts
  induction acts with
  | nil => rfl
  | cons ad rest ih =>
    rw [List.foldl_cons]
    have hstep : (if ad.1 = "move_imports_to_top"
        then fixMoveImportsToTop source tree ad.2 else source) = source := by
      by_cases hc : ad.1 = "move_imports_to_top"
      · simp [hc, fixMove_noop source tree ad.2 h]
      · simp [hc]
    rw [hstep]
    exact ih

/-- A parse tree of `"try:\n    import json\nexcept Exception:\n    pass\n"`:
the only import is `try`-guarded, so nothing is offending. -/
def c10Tree : PyModule :=
  ⟨[.tryStmt [.importStmt 2 2] [.other [] 4 4] [] [] 1 4]⟩

/-- A rule set declaring the implemented relocation autofix. -/
def c10Rules : RuleSet :=
  ⟨1, [{ id := "PYFMT001", enabled := true, severity := "warning",
         description := "Import statement inside a function should be at top of file",
         matchSpec := { context := { in_function := some true, not_in_blocks := ["try"] },
                        statement_token_regex := { compiles := true, search := fun _ => true } },
         autofix := some { action := "move_imports_to_top", dedupe := true } }]⟩

/-- Witness for C10 at a concrete source/tree/rule set. -/
theorem c10_witness :
    unguardedFnImports c10Tree = [] ∧
      applyFixes "try:\n    import json\nexcept Exception:\n    pass\n" c10Tree c10Rules true
        = "try:\n    import json\nexcept Exception:\n    pass\n" :=
  ⟨by decide,
    c10_apply_fixes_identity_when_nothing_offending _ c10Tree c10Rules true (by decide)⟩

/-! ## Claim C2: idempotence fails — the fixer can empty a function body -/

/-- Claim C2 (code bug evidence): on `"def f():\n    import os\n"` — a valid
source whose only function-body statement is the offending import — the fixer
produces `"import os\n\ndef f():\n"`.  The relocated import is correct, but
the `def f():` suite is left with no body, so the output is not valid Python:
re-parsing it fails, `apply_fixes` raises `SyntaxError` on the second run,
and `fix(fix(s)) = fix(s)` cannot hold.  The final line of the output is the
bare header, as the accompanying equation records. -/
theorem c2_fix_output_empties_function_body :
    fixMoveImportsToTop "def f():\n    import os\n" ⟨[.functionDef [.importStmt 2 2] 1 2]⟩ true
        = "import os\n\ndef f():\n" ∧
      (splitLinesKeepEnds
        (fixMoveImportsToTop "def f():\n    import os\n"
          ⟨[.functionDef [.importStmt 2 2] 1 2]⟩ true)).getLast? = some "def f():\n" := by
  decide

/-! ## Claim C7: trailing line break -/

/-- Counterexample to claim C7 as stated, on both paths of the fixer.
On `"x = 1"` (nothing offending, no trailing newline) `apply_fixes`
returns the source unchanged, which ends with no line break at all; and
on `"def f():\n    import os\nx = 1\n\n\n"` the rewrite succeeds but the
result keeps the trailing run of three line feeds — stripping its trailing
line feeds and appending exactly one does not give the result back.  So
the result of a successful fix does not end with exactly one trailing
line break on either path. -/
theorem c7_counterexample_trailing_newlines :
    (applyFixes "x = 1" ⟨[.other [] 1 1]⟩ c10Rules false = "x = 1" ∧
      endsWithLF "x = 1" = false) ∧
    (applyFixes "def f():\n    import os\nx = 1\n\n\n"
        ⟨[.functionDef [.importStmt 2 2] 1 2, .other [] 3 3]⟩ c10Rules false
        = "import os\n\ndef f():\nx = 1\n\n\n" ∧
      rstripNewlines "import os\n\ndef f():\nx = 1\n\n\n" ++ "\n"
        ≠ "import os\n\ndef f():\nx = 1\n\n\n") := by
  decide


/-- Every element the `moved` loop emits ends with a line feed. -/
theorem movedFrom_ends_lf (dedupe : Bool) (spans : List ImportSpan) :
    ∀ m ∈ movedFrom dedupe spans, endsWithLF m = true := by
  rw [movedFrom]
  have H : ∀ (acc : List String × List String), (∀ m ∈ acc.2, endsWithLF m = true) →
      ∀ m ∈ (spans.foldl (movedStep dedupe) acc).2, endsWithLF m = true := by
    induction spans with
    | nil => intro acc hbase m hm; exact hbase m hm
    | cons x xs ih =>
      intro acc hbase m hm
      rw [List.foldl_cons] at hm
      refine ih _ ?_ m hm
      rw [movedStep]
      split
      · exact hbase
      · split
        · exact hbase
        · intro m' hm'
          rcases List.mem_append.mp hm' with h | h
          · exact hbase m' h
          · rw [List.mem_singleton.mp h]
            exact endsWithLF_append_newline _
  exact H ([], []) (by intro m hm; cases hm)

/-- On the rewrite path the result of the fixer is nonempty and ends with a line
feed; otherwise the fixer returns the source verbatim. -/
theorem fixMove_id_or_ends_lf (source : String) (tree : PyModule) (dedupe : Bool) :
    fixMoveImportsToTop source tree dedupe = source ∨
      endsWithLF (fixMoveImportsToTop source tree dedupe) = true := by
  rw [fixMoveImportsToTop]
  split
  · exact Or.inl rfl
  · split
    · exact Or.inl rfl
    · next h1 =>
      right
      obtain ⟨m, hm⟩ := List.exists_mem_of_ne_nil _ h1
      have hmlf : endsWithLF m = true := movedFrom_ends_lf dedupe (spansOf source tree) m hm
      have hmne : m.data ≠ [] := by
        intro hd
        rw [endsWithLF, hd] at hmlf
        simp at hmlf
      have hjm : String.join (movedOf source tree dedupe) ≠ "" :=
        join_ne_empty_of_mem hm hmne
      have hblock : blockOf source tree dedupe ≠ "" := by
        rw [blockOf]
        intro hb
        have hdata := congrArg String.data hb
        rw [String.data_append, String.data_append] at hdata
        have : (String.join (movedOf source tree dedupe)).data = [] := by
          rcases List.append_eq_nil.mp hdata with ⟨h2, _⟩
          exact (List.append_eq_nil.mp h2).2
        exact hjm (String.ext this)
      have hbmem : blockOf source tree dedupe ∈ finalLinesOf source tree dedupe := by
        rw [finalLinesOf]
        simp
      have hout : String.join (finalLinesOf source tree dedupe) ≠ "" := by
        refine join_ne_empty_of_mem hbmem ?_
        intro hd
        exact hblock (String.ext hd)
      dsimp only
      split
      · exact endsWithLF_append_newline _
      · next hcond =>
        rcases not_and_or.mp hcond with h | h
        · exact absurd (not_not.mp h) hout
        · simpa using h

/-- Claim C7 amended: every result of `apply_fixes` either is the source
returned byte-for-byte (the nothing-to-fix paths, where no trailing line
break is added), or ends with at least one trailing line feed (the rewrite
path appends one exactly when the rewritten text lacks it). -/
theorem c7_amended_result_unchanged_or_ends_with_newline
    (source : String) (tree : PyModule) (rs : RuleSet) (lossy : Bool) :
    applyFixes source tree rs lossy = source ∨
      endsWithLF (applyFixes source tree rs lossy) = true := by
  rw [applyFixes]
  have H : ∀ (acts : List (String × Bool)) (cur : String),
      (cur = source ∨ endsWithLF cur = true) →
      ((acts.foldl
        (fun out ad =>
          if ad.1 = "move_imports_to_top" then fixMoveImportsToTop out tree ad.2 else out)
        cur) = source ∨
      endsWithLF (acts.foldl
        (fun out ad =>
          if ad.1 = "move_imports_to_top" then fixMoveImportsToTop out tree ad.2 else out)
        cur) = true) := by
    intro acts
    induction acts with
    | nil => intro cur hbase; exact hbase
    | cons ad rest ih =>
      intro cur hbase
      rw [List.foldl_cons]
      apply ih
      by_cases hc : ad.1 = "move_imports_to_top"
      · rw [if_pos hc]
        rcases fixMove_id_or_ends_lf cur tree ad.2 with h | h
        · rw [h]; exact hbase
        · exact Or.inr h
      · rw [if_neg hc]; exact hbase
  exact H (actionsOf rs) source (Or.inl rfl)

/-- Lines outside every removed span (and not blank) survive the bottom-up
deletion loop verbatim: the element at index `j` of the original list occurs
at some index of the result.  The span list is required to be processed in
strictly descending, pairwise-disjoint order — exactly the shape
`to_remove` has (sorted descending, distinct, statement spans disjoint). -/
theorem delSpans_preserve (rs : List (Nat × Nat)) :
    ∀ (l : List String) (j : Nat) (x : String),
    l[j]? = some x →
    isBlankLine x = false →
    (∀ se ∈ rs, j + 1 < se.1 ∨ se.2 ≤ j) →
    List.Pairwise (fun a b => b.2 < a.1) rs →
    (∀ se ∈ rs, 1 ≤ se.1 ∧ se.1 ≤ se.2) →
    ∃ j' : Nat, (rs.foldl delOneSpan l)[j']? = some x := by
  induction rs with
  | nil =>
    intro l j x hx _ _ _ _
    refine ⟨j, ?_⟩
    simpa using hx
  | cons se rest ih =>
    intro l j x hx hnb hout hpw hbnd
    obtain ⟨s, e⟩ := se
    have hse : 1 ≤ s ∧ s ≤ e := hbnd (s, e) (List.mem_cons_self _ _)
    have hjl : j < l.length := (List.getElem?_eq_some.mp hx).1
    have hnotle : ¬ (e ≤ s - 1) := by omega
    have hL1 : delOneSpan l (s, e) =
        (if (s - 1) < (l.take (s - 1) ++ l.drop e).length ∧
            isBlankLine ((l.take (s - 1) ++ l.drop e).getD (s - 1) "")
          then (l.take (s - 1) ++ l.drop e).eraseIdx (s - 1)
          else l.take (s - 1) ++ l.drop e) := by
      rw [delOneSpan]
      simp only [if_neg hnotle]
    rw [List.foldl_cons]
    rcases hout (s, e) (List.mem_cons_self _ _) with hlt | hge
    · -- j strictly below the deleted span: it keeps its index.
      have hjs : j < s - 1 := by omega
      have h1 : (l.take (s - 1) ++ l.drop e)[j]? = some x := by
        rw [List.getElem?_append, if_pos (show j < (l.take (s - 1)).length by simp; omega)]
        rw [List.getElem?_take, if_pos hjs]
        exact hx
      have h2 : (delOneSpan l (s, e))[j]? = some x := by
        rw [hL1]
        split
        · rw [List.eraseIdx_eq_take_drop_succ]
          have hlt1 : j < (l.take (s - 1) ++ l.drop e).length := (List.getElem?_eq_some.mp h1).1
          rw [List.getElem?_append,
            if_pos (show j < ((l.take (s - 1) ++ l.drop e).take (s - 1)).length by simp; omega)]
          rw [List.getElem?_take, if_pos hjs]
          exact h1
        · exact h1
      exact ih (delOneSpan l (s, e)) j x h2 hnb
        (by intro q hq; exact hout q (List.mem_cons_of_mem _ hq))
        hpw.of_cons
        (by intro q hq; exact hbnd q (List.mem_cons_of_mem _ hq))
    · -- j at or above the end of the deleted span: index shifts down.
      have hsl : s - 1 ≤ l.length := by omega
      have htl : (l.take (s - 1)).length = s - 1 := by
        simp; omega
      have h1 : (l.take (s - 1) ++ l.drop e)[s - 1 + (j - e)]? = some x := by
        rw [List.getElem?_append_right (by omega)]
        rw [htl]
        have : s - 1 + (j - e) - (s - 1) = j - e := by omega
        rw [this, List.getElem?_drop]
        have : e + (j - e) = j := by omega
        rw [this]
        exact hx
      -- The result index after the optional blank-line deletion.
      by_cases hblank : (s - 1) < (l.take (s - 1) ++ l.drop e).length ∧
          isBlankLine ((l.take (s - 1) ++ l.drop e).getD (s - 1) "")
      · -- The blank-deletion fires; our line cannot be the deleted one.
        have hje : e < j := by
          rcases Nat.eq_or_lt_of_le hge with heq | hlt2
          · exfalso
            have : ((l.take (s - 1) ++ l.drop e).getD (s - 1) "") = x := by
              have heq2 : s - 1 + (j - e) = s - 1 := by omega
              rw [heq2] at h1
              rw [List.getD_eq_getElem?_getD, h1]
              rfl
            rw [this] at hblank
            rw [hnb] at hblank
            exact Bool.false_ne_true hblank.2
          · exact hlt2
        have h2 : (delOneSpan l (s, e))[s - 1 + (j - e) - 1]? = some x := by
          rw [hL1, if_pos hblank]
          rw [List.eraseIdx_eq_take_drop_succ]
          rw [List.getElem?_append_right (by simp; omega)]
          have hlen : ((l.take (s - 1) ++ l.drop e).take (s - 1)).length = s - 1 := by
            simp
            omega
          rw [hlen, List.getElem?_drop]
          have : s - 1 + 1 + (s - 1 + (j - e) - 1 - (s - 1)) = s - 1 + (j - e) := by omega
          rw [this]
          exact h1
        exact ih (delOneSpan l (s, e)) (s - 1 + (j - e) - 1) x h2 hnb
          (by
            intro q hq
            have := (List.pairwise_cons.mp hpw).1 q hq
            right
            omega)
          hpw.of_cons
          (by intro q hq; exact hbnd q (List.mem_cons_of_mem _ hq))
      · have h2 : (delOneSpan l (s, e))[s - 1 + (j - e)]? = some x := by
          rw [hL1, if_neg hblank]
          exact h1
        exact ih (delOneSpan l (s, e)) (s - 1 + (j - e)) x h2 hnb
          (by
            intro q hq
            have := (List.pairwise_cons.mp hpw).1 q hq
            right
            omega)
          hpw.of_cons
          (by intro q hq; exact hbnd q (List.mem_cons_of_mem _ hq))

/-- The `(lineno, end_lineno)` pairs of the spans are exactly the collected
offending spans. -/
theorem spans_ranges (source : String) (tree : PyModule) :
    (spansOf source tree).map (fun sp => (sp.lineno, sp.end_lineno))
      = (collectModule tree).offending := by
  rw [spansOf, spansFrom, List.map_map]
  have h : ∀ r : Nat × Nat,
      ((fun sp : ImportSpan => (sp.lineno, sp.end_lineno)) ∘
        (fun r : Nat × Nat =>
          (⟨r.1, r.2, dedent (sliceText (linesOf source) r.1 r.2)⟩ : ImportSpan))) r = r :=
    fun r => rfl
  calc List.map _ (collectModule tree).offending
      = List.map id (collectModule tree).offending := List.map_congr_left (fun r _ => h r)
    _ = (collectModule tree).offending := List.map_id _

/-- `to_remove` is the descending sort of the distinct offending spans. -/
theorem toRemoveOf_eq (source : String) (tree : PyModule) :
    toRemoveOf source tree = sortDesc ((collectModule tree).offending).dedup := by
  rw [toRemoveOf, spans_ranges]

/-- Every element of `to_remove` is an offending span. -/
theorem mem_toRemoveOf {source : String} {tree : PyModule} {q : Nat × Nat}
    (h : q ∈ toRemoveOf source tree) : q ∈ (collectModule tree).offending := by
  rw [toRemoveOf_eq, sortDesc] at h
  exact List.mem_dedup.mp ((List.mem_insertionSort lexGe).mp h)

/-- If the offending spans are pairwise separated statement ranges with sane
bounds, `to_remove` is strictly descending and disjoint, step over step. -/
theorem toRemoveOf_pairwise (source : String) (tree : PyModule)
    (hsep : ∀ p ∈ (collectModule tree).offending, ∀ q ∈ (collectModule tree).offending,
      p ≠ q → p.2 < q.1 ∨ q.2 < p.1)
    (hbnd : ∀ p ∈ (collectModule tree).offending, 1 ≤ p.1 ∧ p.1 ≤ p.2) :
    List.Pairwise (fun a b => b.2 < a.1) (toRemoveOf source tree) := by
  rw [toRemoveOf_eq]
  set L := ((collectModule tree).offending).dedup with hL
  have hnd : L.Nodup := List.nodup_dedup _
  have hnd2 : (sortDesc L).Nodup := (List.perm_insertionSort lexGe L).symm.nodup hnd
  have hsorted : List.Pairwise lexGe (sortDesc L) := List.sorted_insertionSort lexGe L
  have hand := hsorted.and hnd2
  refine hand.imp_of_mem ?_
  intro a b ha hb hab
  have ha' : a ∈ (collectModule tree).offending :=
    List.mem_dedup.mp ((List.mem_insertionSort lexGe).mp ha)
  have hb' : b ∈ (collectModule tree).offending :=
    List.mem_dedup.mp ((List.mem_insertionSort lexGe).mp hb)
  have hsepab := hsep a ha' b hb' hab.2
  have hba := hbnd a ha'
  have hbb := hbnd b hb'
  rcases hab.1 with hlt | ⟨heq, hle⟩
  · rcases hsepab with h | h
    · omega
    · exact h
  · rcases hsepab with h | h
    · omega
    · exact h

/-- Claim C1: a `try`-guarded import nested in a function is never treated
as offending (that is the criterion of the collector), and — provided the
offending statement spans of the parse tree are line-disjoint from the
guarded span, as real parse trees guarantee — every line of the guarded
statement survives in the output of the fixer with its exact text and
indentation.  `hdisj`/`hsep`/`hbounds` state that statement line ranges in
a parse are sane and pairwise separated; `hg` records that the span
`(a, b)` is of an import nested in a function under a `try`. -/
theorem c1_try_guarded_import_left_unchanged
    (source : String) (tree : PyModule) (dedupe : Bool) (a b j : Nat) (x : String)
    (hg : (a, b) ∈ guardedFnImports tree)
    (hab : 1 ≤ a ∧ a ≤ b)
    (hdisj : ∀ q ∈ unguardedFnImports tree, q.2 < a ∨ b < q.1)
    (hsep : ∀ p ∈ unguardedFnImports tree, ∀ q ∈ unguardedFnImports tree,
      p ≠ q → p.2 < q.1 ∨ q.2 < p.1)
    (hbounds : ∀ q ∈ unguardedFnImports tree, 1 ≤ q.1 ∧ q.1 ≤ q.2)
    (hj : a - 1 ≤ j ∧ j < b)
    (hx : (linesOf source)[j]? = some x)
    (hnb : isBlankLine x = false) :
    (a, b) ∉ (collectModule tree).offending ∧
      ∃ pre post, fixMoveImportsToTop source tree dedupe = pre ++ x ++ post := by
  have hoff := collectModule_offending tree
  have hjsrc : String.join (linesOf source) = source := join_splitLines source
  constructor
  · intro hmem
    rw [hoff] at hmem
    rcases hdisj (a, b) hmem with h | h <;> omega
  · rw [fixMoveImportsToTop]
    split
    · obtain ⟨pre, post, hpp⟩ := mem_join_occurrence (List.getElem?_mem hx)
      exact ⟨pre, post, by rw [← hjsrc]; exact hpp⟩
    · split
      · obtain ⟨pre, post, hpp⟩ := mem_join_occurrence (List.getElem?_mem hx)
        exact ⟨pre, post, by rw [← hjsrc]; exact hpp⟩
      · have hpres : ∃ j' : Nat, (deletedOf source tree)[j']? = some x := by
          rw [deletedOf]
          apply delSpans_preserve (toRemoveOf source tree) (linesOf source) j x hx hnb
          · intro q hq
            have hq' := mem_toRemoveOf hq
            rw [hoff] at hq'
            rcases hdisj q hq' with h | h
            · right; omega
            · left; omega
          · apply toRemoveOf_pairwise source tree
            · intro p hp q hq hpq
              rw [hoff] at hp hq
              exact hsep p hp q hq hpq
            · intro p hp
              rw [hoff] at hp
              exact hbounds p hp
          · intro q hq
            have hq' := mem_toRemoveOf hq
            rw [hoff] at hq'
            exact hbounds q hq'
        obtain ⟨j', hj'⟩ := hpres
        have hxmem : x ∈ finalLinesOf source tree dedupe := by
          rw [finalLinesOf]
          have hxd : x ∈ deletedOf source tree := List.getElem?_mem hj'
          rw [← List.take_append_drop (insertIdxOf source tree) (deletedOf source tree)] at hxd
          rcases List.mem_append.mp hxd with h | h
          · exact List.mem_append.mpr (Or.inl (List.mem_append.mpr (Or.inl h)))
          · exact List.mem_append.mpr (Or.inr h)
        obtain ⟨pre, post, hpp⟩ := mem_join_occurrence hxmem
        dsimp only
        split
        · refine ⟨pre, post ++ "\n", ?_⟩
          rw [hpp]
          apply String.ext
          simp [String.data_append]
        · exact ⟨pre, post, hpp⟩

/-- The concrete scenario source of the spec (docstring, unguarded `import os`,
`try`-guarded `import json`). -/
def c1Src : String :=
  "\"\"\"doc\"\"\"\n\ndef f():\n    import os\n    try:\n        import json\n    except Exception:\n        pass\n    return os, json\n"

/-- Its parse tree. -/
def c1Tree : PyModule :=
  ⟨[.exprStr 1 1,
    .functionDef
      [.importStmt 4 4,
       .tryStmt [.importStmt 6 6] [.other [] 8 8] [] [] 5 8,
       .other [] 9 9] 3 9]⟩

/-- Witness for C1: in the concrete scenario the guarded `import json` line
(line 6, index 5) is not offending and survives verbatim. -/
theorem c1_witness :
    (6, 6) ∈ guardedFnImports c1Tree ∧
      ((6, 6) ∉ (collectModule c1Tree).offending ∧
        ∃ pre post, fixMoveImportsToTop c1Src c1Tree true
          = pre ++ "        import json\n" ++ post) :=
  ⟨by decide,
    c1_try_guarded_import_left_unchanged c1Src c1Tree true 6 6 5 "        import json\n"
      (by decide) (by decide) (by decide) (by decide) (by decide) (by decide)
      (by decide) (by decide)⟩

/-- The `seen` set only grows along the dedup loop. -/
theorem movedStep_contains_mono (spans : List ImportSpan) (kO : String) :
    ∀ acc : List String × List String, acc.1.contains kO = true →
      ((spans.foldl (movedStep true) acc).1).contains kO = true := by
  induction spans with
  | nil => intro acc h; exact h
  | cons sp xs ih =>
    intro acc h
    rw [List.foldl_cons]
    apply ih
    rw [movedStep]
    split
    · exact h
    · split
      · exact h
      · simp at h ⊢
        exact Or.inl h

/-- After the loop passes a span whose text trims to `kO`, the key is in
`seen`. -/
theorem movedStep_contains_of_mem (spans : List ImportSpan) (tO : String)
    (hne : pyStrip tO ≠ "") :
    ∀ acc : List String × List String, (∃ sp ∈ spans, sp.text = tO) →
      ((spans.foldl (movedStep true) acc).1).contains (pyStrip tO) = true := by
  induction spans with
  | nil => intro acc h; obtain ⟨sp, hm, _⟩ := h; cases hm
  | cons sp xs ih =>
    intro acc hex
    rw [List.foldl_cons]
    obtain ⟨sp', hm, htext⟩ := hex
    rcases List.mem_cons.mp hm with rfl | hm'
    · -- this very step sees the key
      apply movedStep_contains_mono
      rw [movedStep]
      rw [htext]
      split
      · exact absurd (by assumption) hne
      · split
        · next hc => simpa using hc
        · simp
    · exact ih _ ⟨sp', hm', htext⟩

/-- Invariant: the emitted list contains the entry for `tO` exactly once if
its key has been seen, not at all otherwise (under the uniqueness
hypothesis on keys and entries). -/
theorem movedStep_count_inv (tO : String) (hne : pyStrip tO ≠ "") :
    ∀ (spans : List ImportSpan),
    (∀ sp ∈ spans, sp.text = tO ∨
      (pyStrip sp.text ≠ pyStrip tO ∧
        rstripNewlines sp.text ++ "\n" ≠ rstripNewlines tO ++ "\n")) →
    ∀ acc : List String × List String,
    acc.2.count (rstripNewlines tO ++ "\n")
      = (if acc.1.contains (pyStrip tO) = true then 1 else 0) →
    ((spans.foldl (movedStep true) acc).2).count (rstripNewlines tO ++ "\n")
      = (if ((spans.foldl (movedStep true) acc).1).contains (pyStrip tO) = true
          then 1 else 0) := by
  intro spans
  induction spans with
  | nil => intro _ acc h; exact h
  | cons sp xs ih =>
    intro hkey acc hinv
    rw [List.foldl_cons]
    refine ih (fun q hq => hkey q (List.mem_cons_of_mem _ hq)) _ ?_
    rcases hkey sp (List.mem_cons_self _ _) with htext | ⟨hk, he⟩
    · -- sp is (a copy of) the tracked import
      rw [movedStep, htext]
      split
      · exact absurd (by assumption) hne
      · split
        · exact hinv
        · next hc =>
          have hcf : acc.1.contains (pyStrip tO) = false := by
            simp at hc
            simp [hc]
          rw [hcf] at hinv
          simp at hinv
          simp [hinv, hcf]
    · -- sp is a different import: neither key nor entry matches
      rw [movedStep]
      split
      · exact hinv
      · split
        · exact hinv
        · have h1 : (acc.2 ++ [rstripNewlines sp.text ++ "\n"]).count (rstripNewlines tO ++ "\n")
              = acc.2.count (rstripNewlines tO ++ "\n") := by
            simp [List.count_append, List.count_cons, he]
          have h2 : (acc.1 ++ [pyStrip sp.text]).contains (pyStrip tO) = acc.1.contains (pyStrip tO) := by
            rcases Decidable.em (pyStrip tO ∈ acc.1) with hmem | hmem
            · have ha : acc.1.contains (pyStrip tO) = true := by simpa using hmem
              have hb : (acc.1 ++ [pyStrip sp.text]).contains (pyStrip tO) = true := by
                simp
                exact Or.inl hmem
              rw [ha, hb]
            · have ha : acc.1.contains (pyStrip tO) = false := by simpa using hmem
              have hb : (acc.1 ++ [pyStrip sp.text]).contains (pyStrip tO) = false := by
                simp
                exact ⟨hmem, fun heq => hk heq.symm⟩
              rw [ha, hb]
          rw [h1, h2]
          exact hinv

/-- With `dedupe=true`, a tracked import whose key is unique among the spans
contributes exactly one relocated copy to `moved`. -/
theorem movedFrom_count_one (spans : List ImportSpan) (tO : String)
    (hone : ∃ sp ∈ spans, sp.text = tO)
    (hkey : ∀ sp ∈ spans, sp.text = tO ∨
      (pyStrip sp.text ≠ pyStrip tO ∧
        rstripNewlines sp.text ++ "\n" ≠ rstripNewlines tO ++ "\n"))
    (hne : pyStrip tO ≠ "") :
    (movedFrom true spans).count (rstripNewlines tO ++ "\n") = 1 := by
  rw [movedFrom]
  have hinv := movedStep_count_inv tO hne spans hkey ([], []) (by simp)
  have hcont := movedStep_contains_of_mem spans tO hne ([], []) hone
  rw [hinv, hcont]
  simp

/-- One deletion step never lengthens the list. -/
theorem delOneSpan_length_le (l : List String) (se : Nat × Nat) :
    (delOneSpan l se).length ≤ l.length := by
  rw [delOneSpan]
  split
  · split
    · rw [List.length_eraseIdx]
      split <;> omega
    · exact le_rfl
  · have hlen : (l.take (se.1 - 1) ++ l.drop se.2).length ≤ l.length := by
      simp
      omega
    split
    · refine le_trans ?_ hlen
      rw [List.length_eraseIdx]
      split <;> omega
    · exact hlen

/-- A whole-list fold of deletion steps never lengthens the list. -/
theorem delSpans_length_le (rs : List (Nat × Nat)) :
    ∀ l : List String, (rs.foldl delOneSpan l).length ≤ l.length := by
  induction rs with
  | nil => intro l; exact le_rfl
  | cons se rest ih =>
    intro l
    rw [List.foldl_cons]
    exact le_trans (ih (delOneSpan l se)) (delOneSpan_length_le l se)

/-- A deletion step with a sane in-bounds span keeps at least the prefix
before the span. -/
theorem delOneSpan_length_ge (l : List String) (se : Nat × Nat)
    (h1 : 1 ≤ se.1) (h2 : se.1 ≤ se.2) (h3 : se.2 ≤ l.length) :
    se.1 - 1 ≤ (delOneSpan l se).length := by
  rw [delOneSpan]
  have hno : ¬ (se.2 ≤ se.1 - 1) := by omega
  have hlen : (l.take (se.1 - 1) ++ l.drop se.2).length = se.1 - 1 + (l.length - se.2) := by
    simp
    omega
  split
  · omega
  · next hcond =>
    split
    · next hbl =>
      rw [List.length_eraseIdx]
      rw [hlen] at hbl ⊢
      have := hbl.1
      split <;> omega
    · omega

/-- A deletion step removes at least the full span when it is in bounds. -/
theorem delOneSpan_length_removed (l : List String) (a b : Nat)
    (h1 : 1 ≤ a) (h2 : a ≤ b) (h3 : b ≤ l.length) :
    (delOneSpan l (a, b)).length + (b - (a - 1)) ≤ l.length := by
  rw [delOneSpan]
  have hno : ¬ (b ≤ a - 1) := by omega
  simp only [if_neg hno]
  have hlen : (l.take (a - 1) ++ l.drop b).length = a - 1 + (l.length - b) := by
    simp
    omega
  split
  · rw [List.length_eraseIdx]
    split <;> omega
  · omega

/-- The bottom-up deletion fold removes at least the lines of any one of its
spans (descending disjoint order, sane bounds). -/
theorem delSpans_length (rs : List (Nat × Nat)) :
    ∀ (l : List String) (a b : Nat),
    (a, b) ∈ rs →
    List.Pairwise (fun p q => q.2 < p.1) rs →
    (∀ se ∈ rs, 1 ≤ se.1 ∧ se.1 ≤ se.2 ∧ se.2 ≤ l.length) →
    (rs.foldl delOneSpan l).length + (b - (a - 1)) ≤ l.length := by
  induction rs with
  | nil => intro l a b h; cases h
  | cons se rest ih =>
    intro l a b hmem hpw hbnd
    rw [List.foldl_cons]
    have hse := hbnd se (List.mem_cons_self _ _)
    rcases List.mem_cons.mp hmem with heq | hmem'
    · -- the head span is ours: this very step removes it
      subst heq
      have hrem := delOneSpan_length_removed l a b hse.1 hse.2.1 hse.2.2
      have hmono := delSpans_length_le rest (delOneSpan l (a, b))
      omega
    · -- ours sits strictly below the head span: recurse on the shorter list
      have hlow := (List.pairwise_cons.mp hpw).1
      have hge := delOneSpan_length_ge l se hse.1 hse.2.1 hse.2.2
      have hle := delOneSpan_length_le l se
      refine le_trans (ih (delOneSpan l se) a b hmem' hpw.of_cons ?_) hle
      intro q hq
      have hq' := hbnd q (List.mem_cons_of_mem _ hq)
      have := hlow q hq
      exact ⟨hq'.1, hq'.2.1, by omega⟩

/-- Claim C3: an import nested in a function and enclosed by no `try` is
collected as offending; with `dedupe=true` its dedented text contributes
exactly one entry to the relocated block; its span is in the removal list
and the deletion loop removes at least that many lines; and the output is
the deleted text with the relocated block (separator plus the moved
entries) inserted at the computed insertion index.  The hypotheses record
the parse-tree sanity conditions (spans in bounds and pairwise separated)
and that no other offending import shares this text. -/
theorem c3_unguarded_import_relocated_once
    (source : String) (tree : PyModule) (a b : Nat)
    (hu : (a, b) ∈ unguardedFnImports tree)
    (hbounds : ∀ q ∈ unguardedFnImports tree,
      1 ≤ q.1 ∧ q.1 ≤ q.2 ∧ q.2 ≤ (linesOf source).length)
    (hsep : ∀ p ∈ unguardedFnImports tree, ∀ q ∈ unguardedFnImports tree,
      p ≠ q → p.2 < q.1 ∨ q.2 < p.1)
    (hkey : ∀ q ∈ unguardedFnImports tree, q ≠ (a, b) →
      pyStrip (dedent (sliceText (linesOf source) q.1 q.2))
          ≠ pyStrip (dedent (sliceText (linesOf source) a b)) ∧
        rstripNewlines (dedent (sliceText (linesOf source) q.1 q.2)) ++ "\n"
          ≠ rstripNewlines (dedent (sliceText (linesOf source) a b)) ++ "\n")
    (hne : pyStrip (dedent (sliceText (linesOf source) a b)) ≠ "") :
    (a, b) ∈ (collectModule tree).offending ∧
      (movedOf source tree true).count
        (rstripNewlines (dedent (sliceText (linesOf source) a b)) ++ "\n") = 1 ∧
      (a, b) ∈ toRemoveOf source tree ∧
      (deletedOf source tree).length + (b - (a - 1)) ≤ (linesOf source).length ∧
      ∃ tl, fixMoveImportsToTop source tree true
        = String.join ((deletedOf source tree).take (insertIdxOf source tree))
          ++ String.join (sepBefore source tree)
          ++ String.join (movedOf source tree true) ++ tl := by
  have hoff := collectModule_offending tree
  have hmemoff : (a, b) ∈ (collectModule tree).offending := by rw [hoff]; exact hu
  have hspan : (⟨a, b, dedent (sliceText (linesOf source) a b)⟩ : ImportSpan)
      ∈ spansOf source tree := by
    rw [spansOf, spansFrom]
    exact List.mem_map.mpr ⟨(a, b), hmemoff, rfl⟩
  have hcount : (movedOf source tree true).count
      (rstripNewlines (dedent (sliceText (linesOf source) a b)) ++ "\n") = 1 := by
    rw [movedOf]
    apply movedFrom_count_one (spansOf source tree) (dedent (sliceText (linesOf source) a b))
    · exact ⟨_, hspan, rfl⟩
    · intro sp hsp
      rw [spansOf, spansFrom] at hsp
      obtain ⟨q, hq, rfl⟩ := List.mem_map.mp hsp
      rw [hoff] at hq
      by_cases hqa : q = (a, b)
      · subst hqa
        exact Or.inl rfl
      · exact Or.inr (hkey q hq hqa)
    · exact hne
  have hrem : (a, b) ∈ toRemoveOf source tree := by
    rw [toRemoveOf_eq, sortDesc]
    exact (List.mem_insertionSort lexGe).mpr (List.mem_dedup.mpr hmemoff)
  have hlen : (deletedOf source tree).length + (b - (a - 1)) ≤ (linesOf source).length := by
    rw [deletedOf]
    apply delSpans_length (toRemoveOf source tree) (linesOf source) a b hrem
    · apply toRemoveOf_pairwise source tree
      · intro p hp q hq hpq
        rw [hoff] at hp hq
        exact hsep p hp q hq hpq
      · intro p hp
        rw [hoff] at hp
        exact ⟨(hbounds p hp).1, (hbounds p hp).2.1⟩
    · intro q hq
      have hq' := mem_toRemoveOf hq
      rw [hoff] at hq'
      exact hbounds q hq'
  refine ⟨hmemoff, hcount, hrem, hlen, ?_⟩
  have hmovedne : movedOf source tree true ≠ [] := by
    intro hnil
    rw [hnil] at hcount
    simp at hcount
  have hnotempty : ¬ (collectModule tree).offending.isEmpty = true := by
    intro hemp
    rw [List.isEmpty_iff] at hemp
    rw [hemp] at hmemoff
    cases hmemoff
  rw [fixMoveImportsToTop, if_neg hnotempty, if_neg hmovedne]
  have hout : String.join (finalLinesOf source tree true)
      = String.join ((deletedOf source tree).take (insertIdxOf source tree))
        ++ String.join (sepBefore source tree)
        ++ String.join (movedOf source tree true)
        ++ (String.join (sepAfter source tree)
            ++ String.join ((deletedOf source tree).drop (insertIdxOf source tree))) := by
    rw [finalLinesOf, blockOf]
    apply String.ext
    simp [String.data_join, String.data_append]
  dsimp only
  split
  · refine ⟨String.join (sepAfter source tree)
      ++ String.join ((deletedOf source tree).drop (insertIdxOf source tree)) ++ "\n", ?_⟩
    rw [hout]
    try apply String.ext
    try simp [String.data_append]
  · refine ⟨String.join (sepAfter source tree)
      ++ String.join ((deletedOf source tree).drop (insertIdxOf source tree)), ?_⟩
    rw [hout]
    try apply String.ext
    try simp [String.data_append]

/-- The concrete scenario again, for the C3 witness. -/
def c3Src : String :=
  "\"\"\"doc\"\"\"\n\ndef f():\n    import os\n    try:\n        import json\n    except Exception:\n        pass\n    return os, json\n"

/-- Its parse tree. -/
def c3Tree : PyModule :=
  ⟨[.exprStr 1 1,
    .functionDef
      [.importStmt 4 4,
       .tryStmt [.importStmt 6 6] [.other [] 8 8] [] [] 5 8,
       .other [] 9 9] 3 9]⟩

/-- Witness for C3 at the concrete scenario: `import os` (line 4). -/
theorem c3_witness :
    (4, 4) ∈ unguardedFnImports c3Tree ∧
      ((4, 4) ∈ (collectModule c3Tree).offending ∧
        (movedOf c3Src c3Tree true).count
          (rstripNewlines (dedent (sliceText (linesOf c3Src) 4 4)) ++ "\n") = 1 ∧
        (4, 4) ∈ toRemoveOf c3Src c3Tree ∧
        (deletedOf c3Src c3Tree).length + (4 - (4 - 1)) ≤ (linesOf c3Src).length ∧
        ∃ tl, fixMoveImportsToTop c3Src c3Tree true
          = String.join ((deletedOf c3Src c3Tree).take (insertIdxOf c3Src c3Tree))
            ++ String.join (sepBefore c3Src c3Tree)
            ++ String.join (movedOf c3Src c3Tree true) ++ tl) :=
  ⟨by decide,
    c3_unguarded_import_relocated_once c3Src c3Tree 4 4
      (by decide) (by decide) (by decide) (by decide) (by decide)⟩

/-! ## `token_context.py`: the statement segmenter

`tokenize.generate_tokens` is the external Lexer Adapter, so the segmenter
is embedded over token streams.  Token types cover the tags
`iter_statements` dispatches on; lines are 1-based and columns 0-based as
produced by the tokenizer. -/

inductive TokType where
  | NAME | OP | NEWLINE | NL | INDENT | DEDENT | COMMENT
  | STRING | NUMBER | ENCODING | ENDMARKER
deriving DecidableEq, Repr

/-- `tokenize.TokenInfo`: type, literal text and positions. -/
structure Tok where
  type : TokType
  string : String
  startLine : Nat
  startCol : Nat
  endLine : Nat
  endCol : Nat
deriving DecidableEq, Repr

/-- `StatementContext`. -/
structure StatementContext where
  in_function : Bool
  block_stack : List String
deriving DecidableEq, Repr

/-- `StatementContext.has_any_block` (the source materialises the stack as
a set first; membership is the same). -/
def StatementContext.has_any_block (ctx : StatementContext) (names : List String) : Bool :=
  names.any (fun n => ctx.block_stack.contains n)

/-- `TokenStatement`. -/
structure TokenStatement where
  start_line : Nat
  start_col : Nat
  end_line : Nat
  end_col : Nat
  token_string : String
  context : StatementContext
deriving DecidableEq, Repr

/-- `_KW_SUITE`. -/
def kwSuite : List String :=
  ["def", "class", "try", "except", "finally", "with", "for", "while", "if", "elif", "else"]

/-- The layout token types excluded everywhere (`NL`, `NEWLINE`, `INDENT`,
`DEDENT`, `COMMENT`): the same tuple appears in `flush`, in the disarm
check and in the `last_sig` update. -/
def isLayout : TokType → Bool
  | .NL => true
  | .NEWLINE => true
  | .INDENT => true
  | .DEDENT => true
  | .COMMENT => true
  | _ => false

/-- `token.tok_name` restricted to the modelled types. -/
def tokName : TokType → String
  | .NAME => "NAME"
  | .OP => "OP"
  | .NEWLINE => "NEWLINE"
  | .NL => "NL"
  | .INDENT => "INDENT"
  | .DEDENT => "DEDENT"
  | .COMMENT => "COMMENT"
  | .STRING => "STRING"
  | .NUMBER => "NUMBER"
  | .ENCODING => "ENCODING"
  | .ENDMARKER => "ENDMARKER"

/-- `_fmt_token` (the `NEWLINE`/`NL` cases format a literal backslash-n). -/
def fmtToken (t : Tok) : String :=
  match t.type with
  | .NAME => "NAME:" ++ t.string
  | .OP => "OP:" ++ t.string
  | .STRING => "STRING:<str>"
  | .NUMBER => "NUMBER:<num>"
  | .NEWLINE => "NEWLINE:\\n"
  | .NL => "NL:\\n"
  | .INDENT => "INDENT:<indent>"
  | .DEDENT => "DEDENT:<dedent>"
  | .COMMENT => "COMMENT:<comment>"
  | _ => tokName t.type ++ ":" ++ t.string

/-- `_keep_token`: everything except `ENCODING` and `ENDMARKER`. -/
def keepToken (t : Tok) : Bool :=
  match t.type with
  | .ENCODING => false
  | .ENDMARKER => false
  | _ => true

/-- `" ".join(...)` (structural, for reducibility). -/
def strJoinSep (sep : String) : List String → String
  | [] => ""
  | [x] => x
  | x :: y :: xs => x ++ sep ++ strJoinSep sep (y :: xs)

/-- An opening bracket (`t.string in "([{"` on real one-character tokens). -/
def isOpenBracket (s : String) : Bool :=
  s = "(" || s = "[" || s = "\x7b"

/-- A closing bracket. -/
def isCloseBracket (s : String) : Bool :=
  s = ")" || s = "]" || s = "\x7d"

/-- The `async`-`def` two-token pattern. -/
def isAsyncDefPair (last : Option Tok) (t : Tok) : Bool :=
  match last with
  | some l => l.type = .NAME && l.string = "async" && t.type = .NAME && t.string = "def"
  | none => false

/-- The loop state of `iter_statements`. -/
structure SegState where
  statements : List TokenStatement
  buf : List Tok
  stmtStart : Nat × Nat
  parenDepth : Nat
  blockStack : List String
  seenSuiteKw : Option String
  suiteArmed : Bool
  lastSig : Option Tok
deriving DecidableEq, Repr

/-- The `flush` closure: keep only significant buffered tokens; emit a
`TokenStatement` if any remain, with the recorded start, the end of the
end token (or of the last significant token), a context snapshot and the
fingerprint. -/
def flushState (s : SegState) (endTok : Option Tok) : SegState :=
  let sig := s.buf.filter (fun x => ! isLayout x.type)
  if h : sig = [] then { s with buf := [] }
  else
    let el := match endTok with
      | some e => e.endLine
      | none => (sig.getLast h).endLine
    let ec := match endTok with
      | some e => e.endCol
      | none => (sig.getLast h).endCol
    let ctx : StatementContext := ⟨s.blockStack.contains "def", s.blockStack⟩
    let tokenStr := strJoinSep " " ((sig.filter keepToken).map fmtToken)
    { s with
        buf := [],
        statements := s.statements ++ [⟨s.stmtStart.1, s.stmtStart.2, el, ec, tokenStr, ctx⟩] }

/-- The bracket-depth update (`max(0, d-1)` is truncated subtraction). -/
def parenStep (d : Nat) (t : Tok) : Nat :=
  if t.type = .OP ∧ isOpenBracket t.string then d + 1
  else if t.type = .OP ∧ isCloseBracket t.string then d - 1
  else d

/-- The pending-suite updates, in source order: suite-keyword arming,
`async def`, arming on `:` at depth zero, disarming on any further
significant non-`:` token. -/
def pendingStep (seen : Option String) (armed : Bool) (lastSig : Option Tok)
    (pd : Nat) (t : Tok) : Option String × Bool :=
  let p1 :=
    if t.type = .NAME ∧ kwSuite.contains t.string ∧ pd = 0 then
      ((some t.string : Option String), false)
    else (seen, armed)
  let p2 :=
    if isAsyncDefPair lastSig t ∧ pd = 0 then ((some "def" : Option String), false)
    else p1
  let armed3 :=
    if t.type = .OP ∧ t.string = ":" ∧ pd = 0 ∧ p2.1.isSome then true else p2.2
  if armed3 ∧ ¬ isLayout t.type ∧ ¬ (t.type = .OP ∧ t.string = ":") then
    ((none : Option String), false)
  else (p2.1, armed3)

/-- The `INDENT` push / `DEDENT` pop, clearing the pending state. -/
def blockStep (stack : List String) (p : Option String × Bool) (t : Tok) :
    List String × Option String × Bool :=
  if t.type = .INDENT then
    (match p.2, p.1 with
      | true, some k => stack ++ [k]
      | _, _ => stack,
     (none : Option String), false)
  else if t.type = .DEDENT then (stack.dropLast, (none : Option String), false)
  else (stack, p.1, p.2)

/-- The loop body before the flush: updated depth and context, the token
buffered, the statement start recorded when the buffer was empty. -/
def bufferStage (s : SegState) (t : Tok) : SegState :=
  let pd := parenStep s.parenDepth t
  let p := pendingStep s.seenSuiteKw s.suiteArmed s.lastSig pd t
  let b := blockStep s.blockStack p t
  { statements := s.statements, buf := s.buf ++ [t],
    stmtStart := if s.buf = [] then (t.startLine, t.startCol) else s.stmtStart,
    parenDepth := pd, blockStack := b.1, seenSuiteKw := b.2.1, suiteArmed := b.2.2,
    lastSig := s.lastSig }

/-- One iteration of the `for t in toks` loop: the buffered update, a flush
on `NEWLINE` at depth zero, and the `last_sig` update on significant
tokens. -/
def processTok (s : SegState) (t : Tok) : SegState :=
  let s8 := bufferStage s t
  let s9 := if t.type = .NEWLINE ∧ s8.parenDepth = 0 then flushState s8 (some t) else s8
  if ¬ isLayout t.type then { s9 with lastSig := some t } else s9

/-- The initial loop state of `iter_statements`. -/
def initSegState : SegState :=
  ⟨[], [], (1, 0), 0, [], none, false, none⟩

/-- `iter_statements` over a token stream (the final flush has no end
token). -/
def iterStatements (toks : List Tok) : List TokenStatement :=
  (flushState (toks.foldl processTok initSegState) none).statements

/-! ## `engine.py`: the rule-matching engine

File discovery and reading are out-of-scope I/O; a file is modelled as a
path together with the token stream of its (successfully decoded) text. -/

/-- `Violation`. -/
structure Violation where
  rule_id : String
  message : String
  path : String
  line : Nat
  col : Nat
  severity : String
deriving DecidableEq, Repr

/-- The `Violation(...)` constructed by `check_paths`: the recorded line
of the statement, its column converted to 1-based, the severity and
description. -/
def mkViolation (r : Rule) (st : TokenStatement) (path : String) : Violation :=
  ⟨r.id, r.description, path, st.start_line, st.start_col + 1, r.severity⟩

/-- The `in_function` context-filter skip test. -/
def inFunctionSkip (filter : Option Bool) (v : Bool) : Bool :=
  match filter with
  | none => false
  | some b => v != b

/-- The body of the inner `for _rid, rx, rule in compiled` loop: the three
`continue` tests in source order, then the append. -/
def ruleStep (path : String) (st : TokenStatement) (acc : List Violation) (r : Rule) :
    List Violation :=
  if inFunctionSkip r.matchSpec.context.in_function st.context.in_function then acc
  else if ! r.matchSpec.context.not_in_blocks.isEmpty
      && st.context.has_any_block r.matchSpec.context.not_in_blocks then acc
  else if ! r.matchSpec.statement_token_regex.search st.token_string then acc
  else acc ++ [mkViolation r st path]

/-- The per-file double loop of `check_paths`, accumulating violations. -/
def checkStatements (stmts : List TokenStatement) (compiled : List Rule) (path : String) :
    List Violation :=
  stmts.foldl (fun acc st => compiled.foldl (ruleStep path st) acc) []

/-- The compile pre-step: enabled rules are compiled in order; the first
enabled rule whose pattern fails to compile raises
`ValueError("Invalid regex for rule {id}: ...")`. -/
def compileEnabled : List Rule → Except String (List Rule)
  | [] => .ok []
  | r :: rest =>
    if r.enabled then
      (if r.matchSpec.statement_token_regex.compiles then
        (compileEnabled rest).map (fun l => r :: l)
      else .error ("Invalid regex for rule " ++ r.id))
    else compileEnabled rest

/-- `check_paths` over the decodable files: compile first (aborting the
whole run on failure), then segment and check each file, counting it. -/
def checkPathsModel (files : List (String × List Tok)) (rs : RuleSet) :
    Except String (List Violation × Nat) :=
  match compileEnabled rs.rules with
  | .error e => .error e
  | .ok compiled =>
    .ok (files.foldl
      (fun acc f => (acc.1 ++ checkStatements (iterStatements f.2) compiled f.1, acc.2 + 1))
      ([], 0))

/-- The declarative firing condition of the claim: the `in_function`
filter is unset or matches, no excluded block tag occurs in the stack,
and the pattern finds a match in the fingerprint. -/
def ruleFires (r : Rule) (st : TokenStatement) : Bool :=
  (match r.matchSpec.context.in_function with
    | none => true
    | some b => st.context.in_function == b) &&
  r.matchSpec.context.not_in_blocks.all (fun n => ! st.context.block_stack.contains n) &&
  r.matchSpec.statement_token_regex.search st.token_string

/-- The declarative firing condition as the conjunction of the negated
skip tests. -/
theorem ruleFires_eq (r : Rule) (st : TokenStatement) :
    ruleFires r st
      = ((! inFunctionSkip r.matchSpec.context.in_function st.context.in_function)
        && (! (! r.matchSpec.context.not_in_blocks.isEmpty
            && st.context.has_any_block r.matchSpec.context.not_in_blocks))
        && r.matchSpec.statement_token_regex.search st.token_string) := by
  rw [ruleFires]
  have h1 : (match r.matchSpec.context.in_function with
      | none => true
      | some b => st.context.in_function == b)
      = ! inFunctionSkip r.matchSpec.context.in_function st.context.in_function := by
    cases r.matchSpec.context.in_function with
    | none => rfl
    | some b =>
      rw [inFunctionSkip]
      cases st.context.in_function <;> cases b <;> rfl
  have h2 : r.matchSpec.context.not_in_blocks.all
        (fun n => ! st.context.block_stack.contains n)
      = ! (! r.matchSpec.context.not_in_blocks.isEmpty
          && st.context.has_any_block r.matchSpec.context.not_in_blocks) := by
    cases hn : r.matchSpec.context.not_in_blocks with
    | nil => rfl
    | cons n ns =>
      apply Bool.eq_iff_iff.mpr
      simp [StatementContext.has_any_block]
  rw [h1, h2]

/-- The three sequential `continue` tests emit exactly one violation when
the declarative condition holds, none otherwise. -/
theorem ruleStep_eq (path : String) (st : TokenStatement) (acc : List Violation) (r : Rule) :
    ruleStep path st acc r
      = if ruleFires r st then acc ++ [mkViolation r st path] else acc := by
  rw [ruleStep, ruleFires_eq]
  by_cases hA : inFunctionSkip r.matchSpec.context.in_function st.context.in_function = true
  · simp [hA]
  · rw [Bool.not_eq_true] at hA
    by_cases hB : (! r.matchSpec.context.not_in_blocks.isEmpty
        && st.context.has_any_block r.matchSpec.context.not_in_blocks) = true
    · simp [hA, hB]
    · rw [Bool.not_eq_true] at hB
      by_cases hC : r.matchSpec.statement_token_regex.search st.token_string = true
      · simp [hA, hB, hC]
      · rw [Bool.not_eq_true] at hC
        simp [hA, hB, hC]

/-- The inner rule loop appends the violations of the firing rules, in rule
order, one per rule. -/
theorem foldl_ruleStep (path : String) (st : TokenStatement) :
    ∀ (rules : List Rule) (acc : List Violation),
    rules.foldl (ruleStep path st) acc
      = acc ++ rules.filterMap
          (fun r => if ruleFires r st then some (mkViolation r st path) else none) := by
  intro rules
  induction rules with
  | nil => intro acc; simp
  | cons r rest ih =>
    intro acc
    rw [List.foldl_cons, ih, ruleStep_eq]
    by_cases h : ruleFires r st = true
    · simp [h]
    · rw [Bool.not_eq_true] at h
      simp [h]

/-- `check` emits, per statement in order, one violation for exactly the
enabled-and-compiled rules whose context filter and pattern accept it. -/
theorem checkStatements_eq (stmts : List TokenStatement) (compiled : List Rule) (path : String) :
    checkStatements stmts compiled path
      = stmts.flatMap
          (fun st => compiled.filterMap
            (fun r => if ruleFires r st then some (mkViolation r st path) else none)) := by
  rw [checkStatements]
  have H : ∀ (l : List TokenStatement) (acc : List Violation),
      l.foldl (fun acc st => compiled.foldl (ruleStep path st) acc) acc
        = acc ++ l.flatMap
            (fun st => compiled.filterMap
              (fun r => if ruleFires r st then some (mkViolation r st path) else none)) := by
    intro l
    induction l with
    | nil => intro acc; simp
    | cons st rest ih =>
      intro acc
      rw [List.foldl_cons, ih, foldl_ruleStep]
      simp
  rw [H]
  simp

/-- When the pattern of every enabled rule compiles, the pre-step keeps
exactly the enabled rules in order. -/
theorem compileEnabled_ok (rules : List Rule)
    (h : ∀ r ∈ rules, r.enabled = true → r.matchSpec.statement_token_regex.compiles = true) :
    compileEnabled rules = .ok (rules.filter (fun r => r.enabled)) := by
  induction rules with
  | nil => rfl
  | cons r rest ih =>
    rw [compileEnabled]
    by_cases he : r.enabled = true
    · rw [if_pos he, if_pos (h r (List.mem_cons_self _ _) he)]
      rw [ih (fun q hq hqe => h q (List.mem_cons_of_mem _ hq) hqe)]
      simp [Except.map, List.filter_cons, he]
    · rw [Bool.not_eq_true] at he
      rw [if_neg (by simp [he])]
      rw [ih (fun q hq hqe => h q (List.mem_cons_of_mem _ hq) hqe)]
      simp [List.filter_cons, he]

/-- Claim C4: provided the pattern of every enabled rule compiles, the compiled
list is exactly the enabled rules in order, and for every statement and
every compiled rule `check` emits a violation for that (statement, rule)
pair iff (1) the `in_function` filter is unset or equal, (2) no excluded
tag occurs in the block stack, and (3) the pattern matches the fingerprint
— and the `filterMap` shape yields at most one violation per pair. -/
theorem c4_check_emits_iff_filters_and_pattern
    (stmts : List TokenStatement) (rules : List Rule) (path : String)
    (hcomp : ∀ r ∈ rules, r.enabled = true → r.matchSpec.statement_token_regex.compiles = true) :
    compileEnabled rules = .ok (rules.filter (fun r => r.enabled)) ∧
      checkStatements stmts (rules.filter (fun r => r.enabled)) path
        = stmts.flatMap
            (fun st => (rules.filter (fun r => r.enabled)).filterMap
              (fun r => if ruleFires r st then some (mkViolation r st path) else none)) :=
  ⟨compileEnabled_ok rules hcomp, checkStatements_eq _ _ _⟩

/-- A concrete enabled rule whose pattern compiles and matches anything. -/
def c4Rule : Rule :=
  { id := "R1", enabled := true, severity := "error", description := "flagged statement",
    matchSpec := { context := { in_function := none, not_in_blocks := [] },
                   statement_token_regex := { compiles := true, search := fun _ => true } },
    autofix := none }

/-- A concrete segmented statement. -/
def c4Stmt : TokenStatement :=
  ⟨1, 0, 1, 5, "NAME:x OP:= NUMBER:<num>", ⟨false, []⟩⟩

/-- Witness for C4 at a concrete statement and rule list. -/
theorem c4_witness :
    (∀ r ∈ [c4Rule], r.enabled = true → r.matchSpec.statement_token_regex.compiles = true) ∧
      (compileEnabled [c4Rule] = .ok ([c4Rule].filter (fun r => r.enabled)) ∧
        checkStatements [c4Stmt] ([c4Rule].filter (fun r => r.enabled)) "ex.py"
          = [c4Stmt].flatMap
              (fun st => ([c4Rule].filter (fun r => r.enabled)).filterMap
                (fun r => if ruleFires r st then some (mkViolation r st "ex.py") else none))) :=
  ⟨by decide, c4_check_emits_iff_filters_and_pattern [c4Stmt] [c4Rule] "ex.py" (by decide)⟩

/-- The compile pre-step fails with the first enabled rule whose pattern
does not compile, naming it. -/
theorem compileEnabled_error (rules : List Rule) :
    ∀ r, rules.find? (fun q => q.enabled && ! q.matchSpec.statement_token_regex.compiles)
        = some r →
      compileEnabled rules = .error ("Invalid regex for rule " ++ r.id) := by
  induction rules with
  | nil => intro r h; cases h
  | cons q rest ih =>
    intro r h
    by_cases hq : (q.enabled && ! q.matchSpec.statement_token_regex.compiles) = true
    · simp only [List.find?] at h
      rw [hq] at h
      obtain rfl := Option.some_injective _ h
      rw [Bool.and_eq_true] at hq
      rw [compileEnabled, if_pos hq.1, if_neg (by simpa using hq.2)]
    · rw [Bool.not_eq_true] at hq
      simp only [List.find?] at h
      rw [hq] at h
      rw [compileEnabled]
      rcases Bool.and_eq_false_iff.mp hq with he | hc
      · rw [if_neg (by simp [he])]
        exact ih r h
      · have hcc : q.matchSpec.statement_token_regex.compiles = true := by
          simpa using hc
        by_cases he : q.enabled = true
        · rw [if_pos he, if_pos hcc, ih r h]
          rfl
        · rw [Bool.not_eq_true] at he
          rw [if_neg (by simp [he])]
          exact ih r h

/-- Claim C8: if the pattern of every enabled rule compiles, `check` cannot
fail for this reason (it returns a result for any files); if some pattern
pattern fails to compile, the whole run aborts with an error identifying
the id of the first such rule, independently of the files — before any file is
read and with no partial violations. -/
theorem c8_uncompilable_pattern_aborts_run
    (rs : RuleSet) (files files' : List (String × List Tok)) :
    ((∀ r ∈ rs.rules, r.enabled = true → r.matchSpec.statement_token_regex.compiles = true) →
      ∃ out, checkPathsModel files rs = .ok out) ∧
    (∀ r, rs.rules.find?
          (fun q => q.enabled && ! q.matchSpec.statement_token_regex.compiles) = some r →
      checkPathsModel files rs = .error ("Invalid regex for rule " ++ r.id) ∧
        checkPathsModel files rs = checkPathsModel files' rs ∧
        r ∈ rs.rules ∧ r.enabled = true ∧
        r.matchSpec.statement_token_regex.compiles = false) := by
  constructor
  · intro hall
    rw [checkPathsModel, compileEnabled_ok rs.rules hall]
    exact ⟨_, rfl⟩
  · intro r hfind
    have herr := compileEnabled_error rs.rules r hfind
    have hpred := List.find?_some hfind
    rw [Bool.and_eq_true] at hpred
    refine ⟨?_, ?_, List.mem_of_find?_eq_some hfind, hpred.1, by simpa using hpred.2⟩
    · rw [checkPathsModel, herr]
    · rw [checkPathsModel, checkPathsModel, herr]

/-- An enabled rule whose pattern fails to compile. -/
def c8BadRule : Rule :=
  { id := "RBAD", enabled := true, severity := "error", description := "broken pattern",
    matchSpec := { context := { in_function := none, not_in_blocks := [] },
                   statement_token_regex := { compiles := false, search := fun _ => false } },
    autofix := none }

/-- A disabled rule preceding it (skipped by the compile step). -/
def c8OffRule : Rule :=
  { id := "ROFF", enabled := false, severity := "info", description := "disabled",
    matchSpec := { context := { in_function := none, not_in_blocks := [] },
                   statement_token_regex := { compiles := false, search := fun _ => false } },
    autofix := none }

/-- An enabled rule that compiles. -/
def c8GoodRule : Rule :=
  { id := "RGOOD", enabled := true, severity := "warning", description := "fine",
    matchSpec := { context := { in_function := none, not_in_blocks := [] },
                   statement_token_regex := { compiles := true, search := fun _ => true } },
    autofix := none }

/-- Witness for C8: the all-compile run succeeds; the bad run aborts with
the id of the offending rule whatever the files are. -/
theorem c8_witness :
    (∃ out, checkPathsModel [("ex.py", [])] ⟨1, [c8GoodRule]⟩ = .ok out) ∧
      checkPathsModel [("ex.py", [])] ⟨1, [c8OffRule, c8GoodRule, c8BadRule]⟩
        = .error ("Invalid regex for rule " ++ c8BadRule.id) :=
  ⟨(c8_uncompilable_pattern_aborts_run ⟨1, [c8GoodRule]⟩ [("ex.py", [])] []).1 (by decide),
    ((c8_uncompilable_pattern_aborts_run ⟨1, [c8OffRule, c8GoodRule, c8BadRule]⟩
      [("ex.py", [])] []).2 c8BadRule rfl).1⟩

/-- Invariant tying statement start positions to real token positions: the
pending statement start and the start of every emitted statement are the start
of some token seen so far (`T`). -/
def stmtStartOK (T : List Tok) (s : SegState) : Prop :=
  (s.buf ≠ [] → ∃ t ∈ T, t.startLine = s.stmtStart.1 ∧ t.startCol = s.stmtStart.2) ∧
  (∀ st ∈ s.statements, ∃ t ∈ T, t.startLine = st.start_line ∧ t.startCol = st.start_col)

theorem stmtStartOK_mono {T T' : List Tok} {s : SegState} (hsub : ∀ t ∈ T, t ∈ T')
    (h : stmtStartOK T s) : stmtStartOK T' s := by
  constructor
  · intro hb
    obtain ⟨t, ht, hp⟩ := h.1 hb
    exact ⟨t, hsub t ht, hp⟩
  · intro st hst
    obtain ⟨t, ht, hp⟩ := h.2 st hst
    exact ⟨t, hsub t ht, hp⟩

theorem stmtStartOK_flush {T : List Tok} {s : SegState} (h : stmtStartOK T s)
    (endTok : Option Tok) : stmtStartOK T (flushState s endTok) := by
  rw [flushState]
  split
  · exact ⟨by intro hb; exact absurd rfl hb, h.2⟩
  · next hsig =>
    have hbuf : s.buf ≠ [] := by
      intro hb
      apply hsig
      rw [hb]
      rfl
    constructor
    · intro hb
      exact absurd rfl hb
    · intro st hst
      rcases List.mem_append.mp hst with hmem | hmem
      · exact h.2 st hmem
      · rw [List.mem_singleton.mp hmem]
        exact h.1 hbuf


/-- `stmtStartOK` ignores `lastSig`. -/
theorem stmtStartOK_setLastSig (T : List Tok) (x : SegState) (v : Option Tok) :
    stmtStartOK T { x with lastSig := v } ↔ stmtStartOK T x :=
  Iff.rfl

theorem stmtStartOK_bufferStage {T : List Tok} {s : SegState} (t : Tok)
    (h : stmtStartOK T s) : stmtStartOK (T ++ [t]) (bufferStage s t) := by
  have hmono : ∀ u ∈ T, u ∈ T ++ [t] := fun u hu => List.mem_append.mpr (Or.inl hu)
  rw [bufferStage]
  constructor
  · intro _
    by_cases hb : s.buf = []
    · refine ⟨t, List.mem_append.mpr (Or.inr (List.mem_singleton.mpr rfl)), ?_⟩
      simp [hb]
    · obtain ⟨u, hu, hp⟩ := h.1 hb
      refine ⟨u, hmono u hu, ?_⟩
      simpa [hb] using hp
  · intro st hst
    obtain ⟨u, hu, hp⟩ := h.2 st hst
    exact ⟨u, hmono u hu, hp⟩

theorem stmtStartOK_step {T : List Tok} {s : SegState} (t : Tok)
    (h : stmtStartOK T s) : stmtStartOK (T ++ [t]) (processTok s t) := by
  rw [processTok]
  have h8 := stmtStartOK_bufferStage t h
  have h9 : stmtStartOK (T ++ [t])
      (if t.type = .NEWLINE ∧ (bufferStage s t).parenDepth = 0 then
        flushState (bufferStage s t) (some t) else bufferStage s t) := by
    split
    · exact stmtStartOK_flush h8 (some t)
    · exact h8
  split
  · exact (stmtStartOK_setLastSig _ _ _).mpr h9
  · exact h9

theorem stmtStartOK_foldl (toks : List Tok) :
    ∀ (T : List Tok) (s : SegState), stmtStartOK T s →
      stmtStartOK (T ++ toks) (toks.foldl processTok s) := by
  induction toks with
  | nil => intro T s h; simpa using h
  | cons t rest ih =>
    intro T s h
    rw [List.foldl_cons]
    have := ih (T ++ [t]) (processTok s t) (stmtStartOK_step t h)
    simpa using this

/-- Every statement `iter_statements` emits starts at the recorded start of
some input token (the first token buffered for it). -/
theorem iterStatements_start (toks : List Tok) :
    ∀ st ∈ iterStatements toks, ∃ t ∈ toks,
      t.startLine = st.start_line ∧ t.startCol = st.start_col := by
  have hinit : stmtStartOK [] initSegState := by
    constructor
    · intro hb
      exact absurd rfl hb
    · intro st hst
      cases hst
  have hfold := stmtStartOK_foldl toks [] initSegState hinit
  rw [List.nil_append] at hfold
  have hfin := stmtStartOK_flush hfold (none : Option Tok)
  intro st hst
  exact hfin.2 st hst

/-- Claim C6: every emitted violation carries the line of its statement and
the statement column converted to 1-based (start column + 1), and the
recorded start position of the statement is the start of one of the
stream tokens (the first token buffered for the statement; recorded lines
are 1-based and columns 0-based by the convention of the tokenizer). -/
theorem c6_violation_position_is_statement_start
    (toks : List Tok) (compiled : List Rule) (path : String) (v : Violation)
    (hv : v ∈ checkStatements (iterStatements toks) compiled path) :
    ∃ st ∈ iterStatements toks,
      v.line = st.start_line ∧ v.col = st.start_col + 1 ∧
        ∃ t ∈ toks, t.startLine = st.start_line ∧ t.startCol = st.start_col := by
  rw [checkStatements_eq] at hv
  obtain ⟨st, hst, hvin⟩ := List.mem_flatMap.mp hv
  obtain ⟨r, _, hr⟩ := List.mem_filterMap.mp hvin
  have hveq : v = mkViolation r st path := by
    by_cases hf : ruleFires r st = true
    · rw [if_pos hf] at hr
      exact (Option.some_injective _ hr).symm
    · rw [Bool.not_eq_true] at hf
      rw [hf] at hr
      simp at hr
  refine ⟨st, hst, ?_, ?_, iterStatements_start toks st hst⟩
  · rw [hveq]; rfl
  · rw [hveq]; rfl

/-- A concrete always-matching rule for the C6 witness. -/
def c6Rule : Rule :=
  { id := "R6", enabled := true, severity := "error", description := "flagged",
    matchSpec := { context := { in_function := none, not_in_blocks := [] },
                   statement_token_regex := { compiles := true, search := fun _ => true } },
    autofix := none }

/-- A concrete token stream (`x = 1`). -/
def c6Toks : List Tok :=
  [⟨.NAME, "x", 1, 0, 1, 1⟩, ⟨.OP, "=", 1, 2, 1, 3⟩, ⟨.NUMBER, "1", 1, 4, 1, 5⟩,
   ⟨.NEWLINE, "\n", 1, 5, 1, 6⟩, ⟨.ENDMARKER, "", 2, 0, 2, 0⟩]

/-- Witness for C6: the violation on `x = 1` reports line 1, column 1
(0-based token column 0 plus 1). -/
theorem c6_witness :
    (⟨"R6", "flagged", "ex.py", 1, 1, "error"⟩ : Violation)
        ∈ checkStatements (iterStatements c6Toks) [c6Rule] "ex.py" ∧
      ∃ st ∈ iterStatements c6Toks,
        (⟨"R6", "flagged", "ex.py", 1, 1, "error"⟩ : Violation).line = st.start_line ∧
        (⟨"R6", "flagged", "ex.py", 1, 1, "error"⟩ : Violation).col = st.start_col + 1 ∧
        ∃ t ∈ c6Toks, t.startLine = st.start_line ∧ t.startCol = st.start_col :=
  ⟨by decide,
    c6_violation_position_is_statement_start c6Toks [c6Rule] "ex.py"
      ⟨"R6", "flagged", "ex.py", 1, 1, "error"⟩ (by decide)⟩

/-- An always-matching unfiltered rule for the C9 claim and witness. -/
def c9Rule : Rule :=
  { id := "R9", enabled := true, severity := "info", description := "matches anything",
    matchSpec := { context := { in_function := none, not_in_blocks := [] },
                   statement_token_regex := { compiles := true, search := fun _ => true } },
    autofix := none }

/-- Claim C9: when the stream ends in the `ENDMARKER` pseudo-token and
everything still buffered before it is layout (as the tokenizer guarantees:
after the final `NEWLINE` only `DEDENT`s precede `ENDMARKER`, and the empty
source tokenizes to `ENDMARKER` alone), `iter_statements` returns a
non-empty list whose final statement is produced from the `ENDMARKER`: its
end is the end of the `ENDMARKER` and its fingerprint is empty.  Hence
any enabled rule with no context filter whose pattern matches the empty
string fires on that final statement, yielding one extra violation at
end-of-file for every checked file. -/
theorem c9_endmarker_statement_empty_fingerprint (ts : List Tok) (em : Tok) (r : Rule)
    (hem : em.type = .ENDMARKER)
    (hbuf : ∀ t ∈ (ts.foldl processTok initSegState).buf, isLayout t.type = true)
    (hr1 : r.matchSpec.context.in_function = none)
    (hr2 : r.matchSpec.context.not_in_blocks = [])
    (hr3 : r.matchSpec.statement_token_regex.search "" = true) :
    iterStatements (ts ++ [em]) ≠ [] ∧
      ∃ st : TokenStatement, (iterStatements (ts ++ [em])).getLast? = some st ∧
        st.token_string = "" ∧ st.end_line = em.endLine ∧ st.end_col = em.endCol ∧
        ruleFires r st = true := by
  have hfold : (ts ++ [em]).foldl processTok initSegState
      = processTok (ts.foldl processTok initSegState) em := by
    rw [List.foldl_append, List.foldl_cons, List.foldl_nil]
  set s0 := ts.foldl processTok initSegState with hs0
  have hproc : processTok s0 em = { bufferStage s0 em with lastSig := some em } := by
    rw [processTok]
    simp [hem, show isLayout TokType.ENDMARKER = false from rfl]
  have hfilter : ((bufferStage s0 em).buf).filter (fun x => ! isLayout x.type) = [em] := by
    show ((s0.buf ++ [em]).filter (fun x => ! isLayout x.type)) = [em]
    rw [List.filter_append]
    have h1 : s0.buf.filter (fun x => ! isLayout x.type) = [] :=
      List.filter_eq_nil_iff.mpr (by intro t ht; simp [hbuf t ht])
    rw [h1]
    simp [hem, show isLayout TokType.ENDMARKER = false from rfl]
  rw [iterStatements, hfold, hproc, flushState]
  have hfilter2 : (({ bufferStage s0 em with lastSig := some em } : SegState)).buf.filter
      (fun x => ! isLayout x.type) = [em] := hfilter
  simp only [hfilter2]
  rw [dif_neg (by simp)]
  have hk : keepToken em = false := by
    unfold keepToken
    rw [hem]
  simp only [List.filter_cons, hk, Bool.false_eq_true, if_false, List.filter_nil, List.map_nil,
    List.getLast_singleton, strJoinSep]
  constructor
  · simp
  · refine ⟨_, List.getLast?_concat _, rfl, rfl, rfl, ?_⟩
    rw [ruleFires, hr1, hr2]
    simpa using hr3

/-- Witness for C9 on the tokens of `x\n`. -/
theorem c9_witness :
    iterStatements ([⟨.NAME, "x", 1, 0, 1, 1⟩, ⟨.NEWLINE, "\n", 1, 1, 1, 2⟩]
        ++ [⟨.ENDMARKER, "", 2, 0, 2, 0⟩]) ≠ [] ∧
      ∃ st : TokenStatement,
        (iterStatements ([⟨.NAME, "x", 1, 0, 1, 1⟩, ⟨.NEWLINE, "\n", 1, 1, 1, 2⟩]
          ++ [⟨.ENDMARKER, "", 2, 0, 2, 0⟩])).getLast? = some st ∧
        st.token_string = "" ∧ st.end_line = 2 ∧ st.end_col = 0 ∧
        ruleFires c9Rule st = true :=
  c9_endmarker_statement_empty_fingerprint
    [⟨.NAME, "x", 1, 0, 1, 1⟩, ⟨.NEWLINE, "\n", 1, 1, 1, 2⟩]
    ⟨.ENDMARKER, "", 2, 0, 2, 0⟩ c9Rule rfl (by decide) rfl rfl rfl

/-- The tokens of the single-line compact suite `if x: y` (one logical
line, ending in its `NEWLINE`). -/
def compactSuiteToks : List Tok :=
  [⟨.NAME, "if", 1, 0, 1, 2⟩, ⟨.NAME, "x", 1, 3, 1, 4⟩, ⟨.OP, ":", 1, 4, 1, 5⟩,
   ⟨.NAME, "y", 1, 6, 1, 7⟩, ⟨.NEWLINE, "\n", 1, 7, 1, 8⟩]

/-- The tokens of `try:\n    try:\n        x = 1\n`. -/
def nestedTryToks : List Tok :=
  [⟨.NAME, "try", 1, 0, 1, 3⟩, ⟨.OP, ":", 1, 3, 1, 4⟩, ⟨.NEWLINE, "\n", 1, 4, 1, 5⟩,
   ⟨.INDENT, "    ", 2, 0, 2, 4⟩, ⟨.NAME, "try", 2, 4, 2, 7⟩, ⟨.OP, ":", 2, 7, 2, 8⟩,
   ⟨.NEWLINE, "\n", 2, 8, 2, 9⟩,
   ⟨.INDENT, "        ", 3, 0, 3, 8⟩, ⟨.NAME, "x", 3, 8, 3, 9⟩, ⟨.OP, "=", 3, 10, 3, 11⟩,
   ⟨.NUMBER, "1", 3, 12, 3, 13⟩, ⟨.NEWLINE, "\n", 3, 13, 3, 14⟩,
   ⟨.DEDENT, "", 4, 0, 4, 0⟩, ⟨.DEDENT, "", 4, 0, 4, 0⟩, ⟨.ENDMARKER, "", 4, 0, 4, 0⟩]

/-- Claim C5: processing the compact suite `if x: y` from any statement
boundary at bracket depth zero leaves the block stack untouched and the
pending-suite state cleared (so the `block_stack` of every subsequent
statement is unaffected by it); and on `try:` directly nested in `try:`
the segmented stacks are `[]`, `["try"]`, `["try", "try"]` (depth two, both
entries the `try` tag) and `[]` for the end-of-file statement. -/
theorem c5_compact_suite_no_push_nested_try_depth_two (s : SegState) (h0 : s.parenDepth = 0) (h1 : s.buf = []) :
    ((compactSuiteToks.foldl processTok s).blockStack = s.blockStack ∧
      (compactSuiteToks.foldl processTok s).seenSuiteKw = none ∧
      (compactSuiteToks.foldl processTok s).suiteArmed = false ∧
      (compactSuiteToks.foldl processTok s).parenDepth = 0) ∧
    (iterStatements nestedTryToks).map (fun st => st.context.block_stack)
      = [[], ["try"], ["try", "try"], []] := by
  constructor
  · obtain ⟨stmts, buf, start, pd, stack, seen, armed, last⟩ := s
    simp only at h0 h1
    subst h0
    subst h1
    cases last with
    | none =>
      simp [compactSuiteToks, processTok, bufferStage, parenStep, pendingStep, blockStep,
        flushState, isAsyncDefPair, kwSuite, isLayout, strJoinSep, fmtToken, keepToken,
        show isOpenBracket ":" = false from rfl, show isCloseBracket ":" = false from rfl]
    | some l =>
      simp [compactSuiteToks, processTok, bufferStage, parenStep, pendingStep, blockStep,
        flushState, isAsyncDefPair, kwSuite, isLayout, strJoinSep, fmtToken, keepToken,
        show isOpenBracket ":" = false from rfl, show isCloseBracket ":" = false from rfl]
  · decide

/-- Witness for C5 at the initial segmenter state. -/
theorem c5_witness :
    (initSegState.parenDepth = 0 ∧ initSegState.buf = []) ∧
      (((compactSuiteToks.foldl processTok initSegState).blockStack = initSegState.blockStack ∧
        (compactSuiteToks.foldl processTok initSegState).seenSuiteKw = none ∧
        (compactSuiteToks.foldl processTok initSegState).suiteArmed = false ∧
        (compactSuiteToks.foldl processTok initSegState).parenDepth = 0) ∧
      (iterStatements nestedTryToks).map (fun st => st.context.block_stack)
        = [[], ["try"], ["try", "try"], []]) :=
  ⟨⟨rfl, rfl⟩, c5_compact_suite_no_push_nested_try_depth_two initSegState rfl rfl⟩
